import Mathlib

/-!
Verification development for the Nostalgia_Sim repository.

The Pac-Man gameplay core lives in two variants:
  src/main.cpp   (class PacmanChannel: round state machine, greedy ghost AI,
                  power pellets, tunnel wrap, map loading)
  src/pacman.cpp (standalone variant with an A* pathfinder)

This file shallowly embeds both cores over exact rational arithmetic.
C++ float vectors become pairs of rationals; strict float distance
comparisons sqrt(d) < r are embedded as 0 < r and d < r*r (sqrt is
monotone, so the order of compared distances is preserved), and the
raylib circle-overlap test is embedded with squared distances, as in
raylib itself.  Frame times and timers are rationals.
-/

namespace PacmanChannel

/-- A 2D vector, embedding raylib Vector2 with exact coordinates. -/
structure Vec2 where
  x : ℚ
  y : ℚ
deriving DecidableEq, Repr

/-- A wall rectangle, embedding raylib Rectangle. -/
structure RectQ where
  x : ℚ
  y : ℚ
  width : ℚ
  height : ℚ
deriving DecidableEq, Repr

/-- Squared Euclidean distance between two points. -/
def sqDistV (a b : Vec2) : ℚ := (a.x - b.x) * (a.x - b.x) + (a.y - b.y) * (a.y - b.y)

/-- Embeds the strict comparison Vector2Distance(a,b) < r: since sqrt is
monotone and nonnegative, sqrt(d) < r holds iff 0 < r and d < r*r. -/
def vecDistLt (a b : Vec2) (r : ℚ) : Bool := decide (0 < r) && decide (sqDistV a b < r * r)

/-- Embeds raylib CheckCollisionCircles: squared-distance form of
dist(c1,c2) <= r1 + r2. -/
def checkCollisionCircles (c1 : Vec2) (r1 : ℚ) (c2 : Vec2) (r2 : ℚ) : Bool :=
  decide (sqDistV c1 c2 ≤ (r1 + r2) * (r1 + r2))

/-- Embeds raylib CheckCollisionPointRec (half-open on the far edges). -/
def checkCollisionPointRec (p : Vec2) (r : RectQ) : Bool :=
  decide (r.x ≤ p.x) && decide (p.x < r.x + r.width) &&
  decide (r.y ≤ p.y) && decide (p.y < r.y + r.height)

/-- Floor of a rational to an integer (the float floor() of the source;
all conversions in the source happen on integral values). -/
def floorQ (q : ℚ) : Int := ⌊q⌋

/-- WorldToTile from src/main.cpp line 136: componentwise floor(pos / TILE_SIZE)
with TILE_SIZE = 24. -/
def worldToTile (p : Vec2) : Int × Int := (floorQ (p.x / 24), floorQ (p.y / 24))

/-- IsWall from src/main.cpp lines 140-148: any out-of-bounds coordinate is a
wall; otherwise test the tile corner point against every wall rectangle. -/
def IsWall (mapWidth mapHeight : Int) (walls : List RectQ) (x y : Int) : Bool :=
  if x < 0 ∨ x ≥ mapWidth ∨ y < 0 ∨ y ≥ mapHeight then true
  else walls.any (fun w => checkCollisionPointRec ⟨(x : ℚ) * 24, (y : ℚ) * 24⟩ w)

inductive GhostType where
  | BLINKY | PINKY | INKY | CLYDE
deriving DecidableEq, Repr

inductive GhostState where
  | CHASING | FRIGHTENED | EATEN
deriving DecidableEq, Repr

inductive RoundState where
  | READY | PLAYING | PLAYER_DYING
deriving DecidableEq, Repr

/-- Player struct from src/main.cpp lines 75-79. -/
structure PlayerS where
  position : Vec2
  startPosition : Vec2
  direction : Vec2
  desiredDirection : Vec2
  speed : ℚ
  radius : ℚ
deriving DecidableEq, Repr

/-- Ghost struct from src/main.cpp lines 81-89. -/
structure GhostS where
  position : Vec2
  startPosition : Vec2
  direction : Vec2
  type : GhostType
  state : GhostState
  stateTimer : ℚ
  speed : ℚ
  radius : ℚ
deriving DecidableEq, Repr

/-- Pellet struct from src/main.cpp lines 91-97. -/
structure PelletS where
  position : Vec2
  radius : ℚ
  active : Bool
  isPowerPellet : Bool
  points : Int
deriving DecidableEq, Repr

/-- The full mutable state of PacmanChannel (src/main.cpp lines 107-124). -/
structure GameState where
  walls : List RectQ
  pellets : List PelletS
  ghosts : List GhostS
  player : PlayerS
  playerLives : Int
  score : Int
  activePellets : Int
  mapWidth : Int
  mapHeight : Int
  gameOver : Bool
  victory : Bool
  roundState : RoundState
  roundStateTimer : ℚ
  ghostsEatenThisPowerup : Int
  mapLoaded : Bool
  loadErrorText : String
deriving DecidableEq, Repr

/-- Keyboard sample for one update call. -/
structure InputS where
  keyD : Bool
  keyA : Bool
  keyW : Bool
  keyS : Bool
  enterPressed : Bool
deriving DecidableEq, Repr

/-- StartNewRound from src/main.cpp lines 202-215. -/
def StartNewRound (s : GameState) : GameState :=
  { s with
    player := { s.player with
      position := s.player.startPosition
      direction := ⟨0, 0⟩
      desiredDirection := ⟨0, 0⟩ }
    ghosts := s.ghosts.map (fun g =>
      { g with position := g.startPosition, state := GhostState.CHASING, direction := ⟨-1, 0⟩ })
    roundState := RoundState.READY
    roundStateTimer := 2 }

/-- ResetGame from src/main.cpp lines 185-200; the pellet loop reactivates
every pellet and counts them, so activePellets ends equal to the list length. -/
def ResetGame (s : GameState) : GameState :=
  if s.mapLoaded = false then s
  else
    StartNewRound
      { s with
        playerLives := 3
        score := 0
        gameOver := false
        victory := false
        pellets := s.pellets.map (fun p => { p with active := true })
        activePellets := (s.pellets.length : Int) }

/-- ResetAfterLifeLost from src/main.cpp lines 217-228 (same body as
StartNewRound in the source, duplicated there as well). -/
def ResetAfterLifeLost (s : GameState) : GameState :=
  { s with
    player := { s.player with
      position := s.player.startPosition
      direction := ⟨0, 0⟩
      desiredDirection := ⟨0, 0⟩ }
    ghosts := s.ghosts.map (fun g =>
      { g with position := g.startPosition, state := GhostState.CHASING, direction := ⟨-1, 0⟩ })
    roundState := RoundState.READY
    roundStateTimer := 2 }

/-- The tunnel wrap of src/main.cpp lines 296-297: two sequential ifs on the
x coordinate only (TILE_SIZE/2 = 12). -/
def wrapPlayerX (mapWidth : Int) (p : Vec2) : Vec2 :=
  let x1 : ℚ := if p.x < -12 then (mapWidth : ℚ) * 24 + 12 else p.x
  let x2 : ℚ := if x1 > (mapWidth : ℚ) * 24 + 12 then -12 else x1
  ⟨x2, p.y⟩

/-- The player-movement block of src/main.cpp lines 266-297: latch desired
direction from keys, possibly turn at a tile center, stop at walls, advance,
then wrap horizontally. -/
def movePlayerPhase (inp : InputS) (s : GameState) : GameState :=
  let pl := s.player
  let desired : Vec2 :=
    if inp.keyD then ⟨1, 0⟩
    else if inp.keyA then ⟨-1, 0⟩
    else if inp.keyW then ⟨0, -1⟩
    else if inp.keyS then ⟨0, 1⟩
    else pl.desiredDirection
  let pt := worldToTile pl.position
  let center : Vec2 := ⟨(pt.1 : ℚ) * 24 + 12, (pt.2 : ℚ) * 24 + 12⟩
  let ntd : Int × Int := (pt.1 + floorQ desired.x, pt.2 + floorQ desired.y)
  let turn : Bool :=
    !(IsWall s.mapWidth s.mapHeight s.walls ntd.1 ntd.2) &&
    ((decide (desired.x = -pl.direction.x) && decide (desired.y = -pl.direction.y)) ||
     (decide (desired.x ≠ pl.direction.x) || decide (desired.y ≠ pl.direction.y))) &&
    vecDistLt pl.position center pl.speed
  let pos1 : Vec2 := if turn then center else pl.position
  let dir1 : Vec2 := if turn then desired else pl.direction
  let ntc : Int × Int := (pt.1 + floorQ dir1.x, pt.2 + floorQ dir1.y)
  let stop : Bool :=
    IsWall s.mapWidth s.mapHeight s.walls ntc.1 ntc.2 && vecDistLt pos1 center pl.speed
  let pos2 : Vec2 := if stop then center else pos1
  let dir2 : Vec2 := if stop then ⟨0, 0⟩ else dir1
  let pos3 : Vec2 := ⟨pos2.x + dir2.x * pl.speed, pos2.y + dir2.y * pl.speed⟩
  { s with player := { pl with
      desiredDirection := desired
      direction := dir2
      position := wrapPlayerX s.mapWidth pos3 } }

/-- The candidate directions of the greedy ghost AI (src/main.cpp line 336),
in source order: up, down, left, right. -/
def possibleDirs : List Vec2 := [⟨0, -1⟩, ⟨0, 1⟩, ⟨-1, 0⟩, ⟨1, 0⟩]

/-- Squared distance between integer tile coordinates.  The source compares
float Euclidean tile distances; comparing the squared values preserves the
order. -/
def sqDistI (a b : Int × Int) : Int := (a.1 - b.1) * (a.1 - b.1) + (a.2 - b.2) * (a.2 - b.2)

/-- The neighbor tile reached from a tile by a unit direction (Vector2Add of
src/main.cpp line 341, with the implicit float-to-int conversion of the
IsWall call; the direction components are always 0 or plus/minus 1). -/
def dirTile (gt : Int × Int) (d : Vec2) : Int × Int := (gt.1 + floorQ d.x, gt.2 + floorQ d.y)

/-- One candidate direction of the greedy loop in src/main.cpp lines 339-349:
skip the reverse of the current heading, skip walls, keep the strictly
closest tile seen so far.  The accumulator holds (best squared distance,
best direction); 100000000 is the square of the 10000.0f initial bound. -/
def greedyStep (isW : Int → Int → Bool) (ghostTile playerTile : Int × Int) (opp : Vec2)
    (acc : Int × Vec2) (d : Vec2) : Int × Vec2 :=
  if decide (d.x = opp.x) && decide (d.y = opp.y) then acc
  else
    let nt : Int × Int := dirTile ghostTile d
    if isW nt.1 nt.2 then acc
    else
      let dist := sqDistI nt playerTile
      if dist < acc.1 then (dist, d) else acc

/-- The tile-aligned direction choice of a ghost (src/main.cpp lines 333-350):
greedy local search over the four neighbor directions, excluding the immediate
reverse, minimizing distance to the player tile; the direction is replaced
only when some candidate was found (best_dir nonzero). -/
def chooseGhostDir (isW : Int → Int → Bool) (ghostTile playerTile : Int × Int)
    (cur : Vec2) : Vec2 :=
  let opp : Vec2 := ⟨-cur.x, -cur.y⟩
  let r := possibleDirs.foldl (greedyStep isW ghostTile playerTile opp) (100000000, ⟨0, 0⟩)
  if decide (r.2.x ≠ 0) || decide (r.2.y ≠ 0) then r.2 else cur

/-- The per-ghost state-timer update of src/main.cpp lines 321-327: a ghost
that is not chasing counts its timer down and returns to chasing at base
speed when it expires. -/
def ghostTimerStep (dt : ℚ) (g : GhostS) : GhostS :=
  if g.state ≠ GhostState.CHASING then
    let t := g.stateTimer - dt
    if t ≤ 0 then { g with stateTimer := t, state := GhostState.CHASING, speed := 2 }
    else { g with stateTimer := t }
  else g

/-- The per-ghost movement of src/main.cpp lines 329-352: when within one
step of the tile center, snap to it and re-choose the direction greedily;
always advance by direction * speed. -/
def ghostMoveStep (isW : Int → Int → Bool) (playerTile : Int × Int) (g : GhostS) : GhostS :=
  let gt := worldToTile g.position
  let center : Vec2 := ⟨(gt.1 : ℚ) * 24 + 12, (gt.2 : ℚ) * 24 + 12⟩
  let g1 :=
    if vecDistLt g.position center g.speed then
      { g with position := center, direction := chooseGhostDir isW gt playerTile g.direction }
    else g
  { g1 with position := ⟨g1.position.x + g1.direction.x * g1.speed,
                         g1.position.y + g1.direction.y * g1.speed⟩ }

/-- The ghost loop of the PLAYING case (src/main.cpp lines 320-353): timers,
then tile-aligned greedy steering, then motion.  Each ghost reads only the
fixed player position and walls, so the loop is a map. -/
def ghostsPhase (dt : ℚ) (s : GameState) : GameState :=
  { s with ghosts := s.ghosts.map (fun g =>
      ghostMoveStep (IsWall s.mapWidth s.mapHeight s.walls)
        (worldToTile s.player.position) (ghostTimerStep dt g)) }

/-- The frightening of one ghost on power-pellet pickup
(src/main.cpp lines 363-369). -/
def frightenGhost (g : GhostS) : GhostS :=
  if g.state ≠ GhostState.EATEN then
    { g with state := GhostState.FRIGHTENED, stateTimer := 7, speed := 3/2 }
  else g

/-- Whether the player picks this pellet up (active and circles overlap). -/
def pelletPicked (pl : PlayerS) (p : PelletS) : Bool :=
  p.active && checkCollisionCircles pl.position pl.radius p.position p.radius

/-- One iteration of the pellet loop of src/main.cpp lines 355-372.  The
accumulator is the game state with the already-processed pellets. -/
def pelletStep (pl : PlayerS) (acc : GameState) (p : PelletS) : GameState :=
  if pelletPicked pl p then
    let acc1 := { acc with
      pellets := acc.pellets ++ [{ p with active := false }]
      score := acc.score + p.points
      activePellets := acc.activePellets - 1 }
    if p.isPowerPellet then
      { acc1 with
        ghostsEatenThisPowerup := 0
        ghosts := acc1.ghosts.map frightenGhost }
    else acc1
  else { acc with pellets := acc.pellets ++ [p] }

/-- The pellet loop of src/main.cpp lines 355-372. -/
def pelletsPhase (s : GameState) : GameState :=
  s.pellets.foldl (pelletStep s.player) { s with pellets := [] }

/-- Whether the player circle overlaps this ghost circle. -/
def collidesPlayer (pl : PlayerS) (g : GhostS) : Bool :=
  checkCollisionCircles pl.position pl.radius g.position g.radius

/-- One iteration of the ghost collision loop of src/main.cpp lines 374-390.
Note the source has no break: every overlapping chasing ghost decrements a
life.  The accumulator is the game state with the already-processed ghosts. -/
def ghostColStep (pl : PlayerS) (acc : GameState) (g : GhostS) : GameState :=
  if collidesPlayer pl g then
    match g.state with
    | GhostState.CHASING =>
        { acc with
          ghosts := acc.ghosts ++ [g]
          playerLives := acc.playerLives - 1
          roundState := RoundState.PLAYER_DYING
          roundStateTimer := 3/2 }
    | GhostState.FRIGHTENED =>
        { acc with
          ghosts := acc.ghosts ++
            [{ g with state := GhostState.EATEN, position := g.startPosition, stateTimer := 3 }]
          ghostsEatenThisPowerup := acc.ghostsEatenThisPowerup + 1
          score := acc.score + 100 * 2 ^ (acc.ghostsEatenThisPowerup + 1).toNat }
    | GhostState.EATEN => { acc with ghosts := acc.ghosts ++ [g] }
  else { acc with ghosts := acc.ghosts ++ [g] }

/-- The ghost collision loop of src/main.cpp lines 374-390. -/
def ghostCollisionPhase (s : GameState) : GameState :=
  s.ghosts.foldl (ghostColStep s.player) { s with ghosts := [] }

/-- The victory check of src/main.cpp lines 392-395. -/
def victoryPhase (s : GameState) : GameState :=
  if s.activePellets ≤ 0 then StartNewRound { s with victory := true } else s

/-- The PLAYER_DYING case of src/main.cpp lines 308-317. -/
def dyingStep (dt : ℚ) (s : GameState) : GameState :=
  let t := s.roundStateTimer - dt
  if t ≤ 0 then
    if s.playerLives ≤ 0 then { s with roundStateTimer := t, gameOver := true }
    else ResetAfterLifeLost { s with roundStateTimer := t }
  else { s with roundStateTimer := t }

/-- The composed PLAYING case of src/main.cpp lines 319-396. -/
def playingStep (dt : ℚ) (s : GameState) : GameState :=
  victoryPhase (ghostCollisionPhase (pelletsPhase (ghostsPhase dt s)))

/-- PacmanChannel::Update from src/main.cpp lines 260-398.  dt embeds
GetFrameTime(). -/
def Update (inp : InputS) (dt : ℚ) (s : GameState) : GameState :=
  if s.mapLoaded = false ∨ s.gameOver = true ∨ s.victory = true then
    (if inp.enterPressed then ResetGame s else s)
  else
    let s1 :=
      if s.roundState = RoundState.READY ∨ s.roundState = RoundState.PLAYING then
        movePlayerPhase inp s
      else s
    match s1.roundState with
    | RoundState.READY =>
        if s1.player.direction.x * s1.player.direction.x +
           s1.player.direction.y * s1.player.direction.y > 0 then
          { s1 with roundState := RoundState.PLAYING }
        else s1
    | RoundState.PLAYER_DYING => dyingStep dt s1
    | RoundState.PLAYING => playingStep dt s1

/-- Ghost type round-robin assignment of src/main.cpp line 176. -/
def ghostTypeOf : Nat → GhostType
  | 0 => GhostType.BLINKY
  | 1 => GhostType.PINKY
  | 2 => GhostType.INKY
  | _ => GhostType.CLYDE

/-- One character of the map parse (src/main.cpp lines 170-177). -/
def parseChar (x y : Int) (s : GameState) (c : Char) : GameState :=
  let pos : Vec2 := ⟨(x : ℚ) * 24 + 12, (y : ℚ) * 24 + 12⟩
  if c = '#' then
    { s with walls := s.walls ++ [⟨(x : ℚ) * 24, (y : ℚ) * 24, 24, 24⟩] }
  else if c = '.' then
    { s with pellets := s.pellets ++ [⟨pos, 2, true, false, 10⟩] }
  else if c = 'O' then
    { s with pellets := s.pellets ++ [⟨pos, 6, true, true, 50⟩] }
  else if c = 'P' then
    { s with player := { s.player with startPosition := pos } }
  else if c = 'G' then
    { s with ghosts := s.ghosts ++
        [⟨pos, pos, ⟨-1, 0⟩, ghostTypeOf (s.ghosts.length % 4), GhostState.CHASING, 0, 2, 10⟩] }
  else s

/-- One line of the map parse (src/main.cpp lines 167-180). -/
def parseLine (y : Int) (s : GameState) (line : List Char) : GameState :=
  let s1 := { s with mapWidth := max s.mapWidth (line.length : Int) }
  (line.foldl (fun (a : Int × GameState) c => (a.1 + 1, parseChar a.1 y a.2 c)) (0, s1)).2

/-- LoadMap from src/main.cpp lines 150-183.  The file argument is none when
the stream cannot be opened.  Note the entity lists and dimensions are
cleared before the open check, exactly as in the source. -/
def LoadMap (file : Option (List (List Char))) (s : GameState) : GameState :=
  let s0 := { s with walls := [], pellets := [], ghosts := [], mapWidth := 0, mapHeight := 0 }
  match file with
  | none => { s0 with mapLoaded := false, loadErrorText := "ERROR: level.txt not found!" }
  | some lines =>
      let s1 := (lines.foldl (fun (a : Int × GameState) line =>
        (a.1 + 1, parseLine a.1 a.2 line)) (0, s0)).2
      { s1 with mapHeight := (lines.length : Int), mapLoaded := true }

/-- Number of ghosts whose circle overlaps the player circle while chasing. -/
def countCollidingChasing (s : GameState) : Nat :=
  (s.ghosts.filter (fun g => collidesPlayer s.player g &&
    decide (g.state = GhostState.CHASING))).length

/-- Number of ghosts whose circle overlaps the player circle while frightened. -/
def countCollidingFrightened (s : GameState) : Nat :=
  (s.ghosts.filter (fun g => collidesPlayer s.player g &&
    decide (g.state = GhostState.FRIGHTENED))).length

/-- Number of active pellets in a pellet list. -/
def countActive (l : List PelletS) : Nat := (l.filter (fun p => p.active)).length

/-- Number of pellets the player picks up this frame. -/
def countPicked (pl : PlayerS) (l : List PelletS) : Nat :=
  (l.filter (fun p => pelletPicked pl p)).length

/-- Number of picked power pellets this frame. -/
def countPickedPower (pl : PlayerS) (l : List PelletS) : Nat :=
  (l.filter (fun p => pelletPicked pl p && p.isPowerPellet)).length

/-- The per-ghost bonus of src/main.cpp line 383 for the n-th ghost eaten in
the current powerup window: 100 * 2^n. -/
def ghostBonus (n : Int) : Int := 100 * 2 ^ n.toNat

/-- Total score added by eating k frightened ghosts in a row, starting with
the eaten-counter at c. -/
def bonusSum (c : Int) : Nat → Int
  | 0 => 0
  | Nat.succ k => ghostBonus (c + 1) + bonusSum (c + 1) k

/-- The transformation the collision loop applies to each ghost. -/
def ghostColTransform (pl : PlayerS) (g : GhostS) : GhostS :=
  if collidesPlayer pl g then
    match g.state with
    | GhostState.FRIGHTENED =>
        { g with state := GhostState.EATEN, position := g.startPosition, stateTimer := 3 }
    | _ => g
  else g

/-- The transformation the pellet loop applies to each pellet. -/
def pelletTransform (pl : PlayerS) (p : PelletS) : PelletS :=
  if pelletPicked pl p then { p with active := false } else p

/-- A direction the greedy ghost search may take: one of the four candidate
directions, not the immediate reverse of the current heading, and leading to
a non-wall tile. -/
def legalDir (isW : Int → Int → Bool) (gt : Int × Int) (cur d : Vec2) : Prop :=
  d ∈ possibleDirs ∧ ¬(d.x = -cur.x ∧ d.y = -cur.y) ∧
  isW (dirTile gt d).1 (dirTile gt d).2 = false

/-- Input sample with no key pressed. -/
def idleInput : InputS := ⟨false, false, false, false, false⟩

/-- Concrete chasing ghost sitting exactly on the player for the C1 run. -/
def c1Ghost : GhostS :=
  ⟨⟨60, 60⟩, ⟨36, 36⟩, ⟨-1, 0⟩, GhostType.BLINKY, GhostState.CHASING, 0, 2, 10⟩

/-- Concrete playing state in which two chasing ghosts overlap the player. -/
def c1State : GameState :=
  ⟨[], [], [c1Ghost, c1Ghost], ⟨⟨60, 60⟩, ⟨60, 60⟩, ⟨0, 0⟩, ⟨0, 0⟩, 14/5, 10⟩,
   3, 0, 5, 5, 5, false, false, RoundState.PLAYING, 0, 0, true, ""⟩

/-- Concrete state in which the player sits on an active power pellet, with
one chasing ghost and one eaten ghost elsewhere. -/
def c2StateA : GameState :=
  ⟨[], [⟨⟨60, 60⟩, 6, true, true, 50⟩],
   [⟨⟨300, 300⟩, ⟨300, 300⟩, ⟨-1, 0⟩, GhostType.BLINKY, GhostState.CHASING, 0, 2, 10⟩,
    ⟨⟨300, 300⟩, ⟨300, 300⟩, ⟨-1, 0⟩, GhostType.PINKY, GhostState.EATEN, 1, 2, 10⟩],
   ⟨⟨60, 60⟩, ⟨60, 60⟩, ⟨0, 0⟩, ⟨0, 0⟩, 14/5, 10⟩,
   3, 0, 1, 5, 5, false, false, RoundState.PLAYING, 0, 5, true, ""⟩

/-- Concrete state in which two frightened ghosts overlap the player and the
powerup eaten-counter is zero. -/
def c2StateB : GameState :=
  ⟨[], [],
   [⟨⟨60, 60⟩, ⟨36, 36⟩, ⟨-1, 0⟩, GhostType.BLINKY, GhostState.FRIGHTENED, 5, 3/2, 10⟩,
    ⟨⟨60, 60⟩, ⟨36, 36⟩, ⟨-1, 0⟩, GhostType.PINKY, GhostState.FRIGHTENED, 5, 3/2, 10⟩],
   ⟨⟨60, 60⟩, ⟨60, 60⟩, ⟨0, 0⟩, ⟨0, 0⟩, 14/5, 10⟩,
   3, 0, 5, 5, 5, false, false, RoundState.PLAYING, 0, 0, true, ""⟩

/-- Concrete state holding one last active pellet under the player. -/
def c3State : GameState :=
  ⟨[], [⟨⟨60, 60⟩, 2, true, false, 10⟩], [],
   ⟨⟨60, 60⟩, ⟨60, 60⟩, ⟨0, 0⟩, ⟨0, 0⟩, 14/5, 10⟩,
   3, 0, 1, 5, 5, false, false, RoundState.PLAYING, 0, 0, true, ""⟩

/-- Concrete state whose active-pellet counter has just reached zero. -/
def c3VState : GameState :=
  ⟨[], [⟨⟨60, 60⟩, 2, false, false, 10⟩], [],
   ⟨⟨60, 60⟩, ⟨60, 60⟩, ⟨0, 0⟩, ⟨0, 0⟩, 14/5, 10⟩,
   3, 10, 0, 5, 5, false, false, RoundState.PLAYING, 0, 0, true, ""⟩

/-- Concrete state in which exactly one chasing ghost overlaps the player. -/
def c4State : GameState :=
  ⟨[], [], [⟨⟨60, 58⟩, ⟨36, 36⟩, ⟨0, -1⟩, GhostType.BLINKY, GhostState.CHASING, 0, 2, 10⟩],
   ⟨⟨60, 60⟩, ⟨60, 60⟩, ⟨0, 0⟩, ⟨0, 0⟩, 14/5, 10⟩,
   2, 0, 3, 5, 5, false, false, RoundState.PLAYING, 0, 0, true, ""⟩

/-- Concrete dying state out of lives whose timer is about to expire. -/
def c4Dying : GameState :=
  ⟨[], [], [], ⟨⟨60, 60⟩, ⟨60, 60⟩, ⟨0, 0⟩, ⟨0, 0⟩, 14/5, 10⟩,
   0, 0, 3, 5, 5, false, false, RoundState.PLAYER_DYING, 1/2, 0, true, ""⟩

/-- Concrete mid-game state with a loaded map, for exercising the resets. -/
def c5State : GameState :=
  ⟨[], [⟨⟨60, 60⟩, 2, false, false, 10⟩, ⟨⟨84, 60⟩, 6, true, true, 50⟩],
   [⟨⟨84, 84⟩, ⟨36, 36⟩, ⟨0, 1⟩, GhostType.BLINKY, GhostState.FRIGHTENED, 4, 3/2, 10⟩],
   ⟨⟨72, 60⟩, ⟨60, 60⟩, ⟨1, 0⟩, ⟨1, 0⟩, 14/5, 10⟩,
   1, 77, 1, 5, 5, false, false, RoundState.PLAYER_DYING, 1/2, 2, true, ""⟩

end PacmanChannel

namespace PacmanLegends

/-!
Embedding of the A* pathfinder of src/pacman.cpp (lines 183-225) together
with the node arena built by its LoadMap (lines 306-354).  Costs are exact
rationals; the C++ INFINITY initializations become none.  The Euclidean
heuristic and the start node initial global goal are abstract parameters:
none of the verified properties depend on their values, and intended
instantiations are the tile and world distances of the source.
-/

/-- Node from src/pacman.cpp lines 20-29, with parent links as arena
indices (the coordinates and neighbor lists are kept outside the node). -/
structure ANode where
  isObstacle : Bool
  isVisited : Bool
  globalGoal : Option ℚ
  localGoal : Option ℚ
  parent : Option Nat
deriving DecidableEq, Repr

instance : Inhabited ANode := ⟨⟨false, false, none, none, none⟩⟩

/-- Arena lookup by index. -/
def getNode (ns : List ANode) (i : Nat) : ANode := ns.getD i default

/-- Strict float comparison with none as INFINITY: INFINITY is below
nothing, and every finite value is below INFINITY. -/
def qltB : Option ℚ → Option ℚ → Bool
  | none, _ => false
  | some _, none => true
  | some a, some b => decide (a < b)

/-- Addition with none as INFINITY. -/
def addInf : Option ℚ → ℚ → Option ℚ
  | none, _ => none
  | some a, q => some (a + q)

/-- The search state: the node arena plus listNotTestedNodes, the open
list of src/pacman.cpp line 192. -/
structure AState where
  nodes : List ANode
  listNotTestedNodes : List Nat
deriving DecidableEq, Repr

/-- The sort comparator of src/pacman.cpp line 196 turned into the
non-strict relation a stable sort produces: i may precede j unless j is
strictly cheaper. -/
def nodeLe (ns : List ANode) (i j : Nat) : Bool :=
  !(qltB (getNode ns j).globalGoal (getNode ns i).globalGoal)

/-- The body of the neighbor loop of src/pacman.cpp lines 202-210: push
unvisited non-obstacle neighbors, then relax (the relaxation in the source
is unguarded and applies to every neighbor). -/
def processNeighbor (hfun : Nat → ℚ) (cur : Nat) (st : AState) (j : Nat) : AState :=
  let nj := getNode st.nodes j
  let opened :=
    if !nj.isVisited && !nj.isObstacle then st.listNotTestedNodes ++ [j]
    else st.listNotTestedNodes
  let fNew := addInf (getNode st.nodes cur).localGoal 1
  if qltB fNew nj.localGoal then
    { nodes := st.nodes.set j
        { nj with parent := some cur, localGoal := fNew, globalGoal := addInf fNew (hfun j) }
      listNotTestedNodes := opened }
  else { nodes := st.nodes, listNotTestedNodes := opened }

/-- Result of one iteration of the while loop of src/pacman.cpp
lines 195-211: either the loop ends, or it expands the recorded node. -/
inductive StepResult where
  | halt (st : AState)
  | expanded (cur : Nat) (st : AState)
deriving DecidableEq, Repr

/-- One iteration of the A* loop of src/pacman.cpp lines 195-211: test the
front against the goal, sort by global goal, pop finalized nodes, mark the
new front visited and process its neighbors.  The expanded node stays at
the front of the open list, as in the source. -/
def astarStep (hfun : Nat → ℚ) (nbrs : Nat → List Nat) (goal : Nat) (st : AState) :
    StepResult :=
  match st.listNotTestedNodes.head? with
  | none => StepResult.halt st
  | some front =>
    if front = goal then StepResult.halt st
    else
      let sorted := st.listNotTestedNodes.mergeSort (nodeLe st.nodes)
      match sorted.dropWhile (fun i => (getNode st.nodes i).isVisited) with
      | [] => StepResult.halt { st with listNotTestedNodes := [] }
      | cur :: rest =>
        let ns1 := st.nodes.set cur { getNode st.nodes cur with isVisited := true }
        StepResult.expanded cur
          ((nbrs cur).foldl (processNeighbor hfun cur)
            { nodes := ns1, listNotTestedNodes := cur :: rest })

/-- The A* while loop, with fuel bounding the number of iterations (each
iteration finalizes a fresh node, so the node count plus one is enough). -/
def astarLoop (hfun : Nat → ℚ) (nbrs : Nat → List Nat) (goal : Nat) :
    Nat → AState → AState
  | 0, st => st
  | Nat.succ fuel, st =>
      match astarStep hfun nbrs goal st with
      | StepResult.halt st2 => st2
      | StepResult.expanded _ st2 => astarLoop hfun nbrs goal fuel st2

/-- The sequence of nodes the loop expands, in order. -/
def astarTrace (hfun : Nat → ℚ) (nbrs : Nat → List Nat) (goal : Nat) :
    Nat → AState → List Nat
  | 0, _ => []
  | Nat.succ fuel, st =>
      match astarStep hfun nbrs goal st with
      | StepResult.halt _ => []
      | StepResult.expanded cur st2 => cur :: astarTrace hfun nbrs goal fuel st2

/-- The per-query node reset of src/pacman.cpp lines 183-186. -/
def resetNodes (ns : List ANode) : List ANode :=
  ns.map (fun n => { n with isVisited := false, globalGoal := none, localGoal := none,
                            parent := none })

/-- The search initialization of src/pacman.cpp lines 187-193: reset all
nodes, give the start local goal 0 and global goal g0 (the world distance
from ghost to player in the source), and seed the open list. -/
def astarInit (g0 : ℚ) (start : Nat) (ns : List ANode) : AState :=
  let ns1 := resetNodes ns
  let ns2 := ns1.set start
    { getNode ns1 start with localGoal := some 0, globalGoal := some g0 }
  { nodes := ns2, listNotTestedNodes := [start] }

/-- The parent-chain walk of src/pacman.cpp lines 212-214 (before the
reverse): the goal node, then its parents.  Fuel bounds the walk. -/
def buildChain (ns : List ANode) : Nat → Nat → List Nat
  | 0, _ => []
  | Nat.succ fuel, i =>
      i :: (match (getNode ns i).parent with
            | none => []
            | some p => buildChain ns fuel p)

/-- ghost.path after the reverse of src/pacman.cpp line 215. -/
def ghostPathOf (ns : List ANode) (fuel : Nat) (goal : Nat) : List Nat :=
  (buildChain ns fuel goal).reverse

/-- The movement guard of src/pacman.cpp line 219: the ghost moves along
the path only when it is nonempty and longer than one node. -/
def pathMoveGuard (path : List Nat) : Bool :=
  !path.isEmpty && decide (1 < path.length)

/-- One walkable step of the grid graph: j is a neighbor of i and j is not
an obstacle (obstacle nodes are never pushed into the open list). -/
def edgeStep (nbrs : Nat → List Nat) (obs : Nat → Bool) (i j : Nat) : Prop :=
  j ∈ nbrs i ∧ obs j = false

/-- Walkable reachability from the start node. -/
def ReachableFrom (nbrs : Nat → List Nat) (obs : Nat → Bool) (start i : Nat) : Prop :=
  Relation.ReflTransGen (edgeStep nbrs obs) start i

/-- The neighbor lists built by LoadMap in src/pacman.cpp lines 347-354,
in source order: up, down, left, right, for the node with index i = y*w+x. -/
def gridNeighbors (w h : Nat) (i : Nat) : List Nat :=
  let x := i % w
  let y := i / w
  (if 0 < y then [(y - 1) * w + x] else []) ++
  (if y < h - 1 then [(y + 1) * w + x] else []) ++
  (if 0 < x then [y * w + (x - 1)] else []) ++
  (if x < w - 1 then [y * w + (x + 1)] else [])

/-- Number of nodes not yet finalized. -/
def unvisitedCount (ns : List ANode) : Nat := ns.countP (fun n => !n.isVisited)

/-- Concrete two-node arena (a 2 by 1 grid) whose second node is an
obstacle, so the goal node 1 is unreachable from the start node 0. -/
def c8Nodes : List ANode :=
  [⟨false, false, none, none, none⟩, ⟨true, false, none, none, none⟩]

/-- Heuristic instance for the concrete run. -/
def c8Heur : Nat → ℚ := fun _ => 0

/-- The concrete initial search state: start node 0, goal node 1. -/
def c8Init : AState := astarInit 5 0 c8Nodes

end PacmanLegends

namespace PacmanChannel

/-- Field-by-field effect of one iteration of the ghost collision loop. -/
theorem ghostColStep_fields (pl : PlayerS) (acc : GameState) (g : GhostS) :
    (ghostColStep pl acc g).playerLives =
      acc.playerLives -
        (if collidesPlayer pl g && decide (g.state = GhostState.CHASING) then 1 else 0) ∧
    (ghostColStep pl acc g).roundState =
      (if collidesPlayer pl g && decide (g.state = GhostState.CHASING) then
        RoundState.PLAYER_DYING else acc.roundState) ∧
    (ghostColStep pl acc g).roundStateTimer =
      (if collidesPlayer pl g && decide (g.state = GhostState.CHASING) then
        3/2 else acc.roundStateTimer) ∧
    (ghostColStep pl acc g).ghostsEatenThisPowerup =
      acc.ghostsEatenThisPowerup +
        (if collidesPlayer pl g && decide (g.state = GhostState.FRIGHTENED) then 1 else 0) ∧
    (ghostColStep pl acc g).score =
      acc.score +
        (if collidesPlayer pl g && decide (g.state = GhostState.FRIGHTENED) then
          ghostBonus (acc.ghostsEatenThisPowerup + 1) else 0) ∧
    (ghostColStep pl acc g).ghosts = acc.ghosts ++ [ghostColTransform pl g] ∧
    (ghostColStep pl acc g).gameOver = acc.gameOver ∧
    (ghostColStep pl acc g).victory = acc.victory ∧
    (ghostColStep pl acc g).pellets = acc.pellets ∧
    (ghostColStep pl acc g).activePellets = acc.activePellets ∧
    (ghostColStep pl acc g).player = acc.player := by
  cases hc : collidesPlayer pl g <;> cases hst : g.state <;>
    simp [ghostColStep, ghostColTransform, ghostBonus, hc, hst]

/-- Field-by-field effect of the whole ghost collision loop, for any
already-processed prefix accumulator. -/
theorem gcolFold (pl : PlayerS) (gs : List GhostS) (acc : GameState) :
    (gs.foldl (ghostColStep pl) acc).playerLives =
      acc.playerLives -
        ((gs.filter (fun g => collidesPlayer pl g &&
          decide (g.state = GhostState.CHASING))).length : Int) ∧
    (gs.foldl (ghostColStep pl) acc).roundState =
      (if (gs.filter (fun g => collidesPlayer pl g &&
            decide (g.state = GhostState.CHASING))).length = 0 then
        acc.roundState else RoundState.PLAYER_DYING) ∧
    (gs.foldl (ghostColStep pl) acc).roundStateTimer =
      (if (gs.filter (fun g => collidesPlayer pl g &&
            decide (g.state = GhostState.CHASING))).length = 0 then
        acc.roundStateTimer else 3/2) ∧
    (gs.foldl (ghostColStep pl) acc).ghostsEatenThisPowerup =
      acc.ghostsEatenThisPowerup +
        ((gs.filter (fun g => collidesPlayer pl g &&
          decide (g.state = GhostState.FRIGHTENED))).length : Int) ∧
    (gs.foldl (ghostColStep pl) acc).score =
      acc.score + bonusSum acc.ghostsEatenThisPowerup
        ((gs.filter (fun g => collidesPlayer pl g &&
          decide (g.state = GhostState.FRIGHTENED))).length) ∧
    (gs.foldl (ghostColStep pl) acc).ghosts = acc.ghosts ++ gs.map (ghostColTransform pl) ∧
    (gs.foldl (ghostColStep pl) acc).gameOver = acc.gameOver ∧
    (gs.foldl (ghostColStep pl) acc).victory = acc.victory ∧
    (gs.foldl (ghostColStep pl) acc).pellets = acc.pellets ∧
    (gs.foldl (ghostColStep pl) acc).activePellets = acc.activePellets ∧
    (gs.foldl (ghostColStep pl) acc).player = acc.player := by
  induction gs generalizing acc with
  | nil => simp [bonusSum]
  | cons g gs ih =>
      obtain ⟨h1, h2, h3, h4, h5, h6, h7, h8, h9, h10, h11⟩ := ghostColStep_fields pl acc g
      obtain ⟨i1, i2, i3, i4, i5, i6, i7, i8, i9, i10, i11⟩ := ih (ghostColStep pl acc g)
      rw [List.foldl_cons]
      by_cases hcc : (collidesPlayer pl g && decide (g.state = GhostState.CHASING)) = true <;>
      by_cases hcf : (collidesPlayer pl g && decide (g.state = GhostState.FRIGHTENED)) = true
      · exfalso
        simp only [Bool.and_eq_true, decide_eq_true_eq] at hcc hcf
        rw [hcc.2] at hcf
        exact absurd hcf.2 (by simp)
      · refine ⟨?_, ?_, ?_, ?_, ?_, ?_, ?_, ?_, ?_, ?_, ?_⟩
        · rw [i1, h1, List.filter_cons]; simp [hcc] <;> omega
        · rw [i2, h2, List.filter_cons]; simp [hcc]
        · rw [i3, h3, List.filter_cons]; simp [hcc]
        · rw [i4, h4, List.filter_cons]; simp [hcf]
        · rw [i5, h5, h4, List.filter_cons]; simp [hcf]
        · rw [i6, h6]; simp
        · rw [i7, h7]
        · rw [i8, h8]
        · rw [i9, h9]
        · rw [i10, h10]
        · rw [i11, h11]
      · refine ⟨?_, ?_, ?_, ?_, ?_, ?_, ?_, ?_, ?_, ?_, ?_⟩
        · rw [i1, h1, List.filter_cons]; simp [hcc] <;> omega
        · rw [i2, h2, List.filter_cons]; simp [hcc]
        · rw [i3, h3, List.filter_cons]; simp [hcc]
        · rw [i4, h4, List.filter_cons]; simp [hcf] <;> omega
        · rw [i5, h5, h4, List.filter_cons]; simp [hcf, bonusSum] <;> ring
        · rw [i6, h6]; simp
        · rw [i7, h7]
        · rw [i8, h8]
        · rw [i9, h9]
        · rw [i10, h10]
        · rw [i11, h11]
      · refine ⟨?_, ?_, ?_, ?_, ?_, ?_, ?_, ?_, ?_, ?_, ?_⟩
        · rw [i1, h1, List.filter_cons]; simp [hcc]
        · rw [i2, h2, List.filter_cons]; simp [hcc]
        · rw [i3, h3, List.filter_cons]; simp [hcc]
        · rw [i4, h4, List.filter_cons]; simp [hcf]
        · rw [i5, h5, h4, List.filter_cons]; simp [hcf]
        · rw [i6, h6]; simp
        · rw [i7, h7]
        · rw [i8, h8]
        · rw [i9, h9]
        · rw [i10, h10]
        · rw [i11, h11]

/-- Field-by-field effect of one iteration of the pellet loop. -/
theorem pelletStep_fields (pl : PlayerS) (acc : GameState) (p : PelletS) :
    (pelletStep pl acc p).pellets = acc.pellets ++ [pelletTransform pl p] ∧
    (pelletStep pl acc p).activePellets =
      acc.activePellets - (if pelletPicked pl p then 1 else 0) ∧
    (pelletStep pl acc p).ghosts =
      (if pelletPicked pl p && p.isPowerPellet then acc.ghosts.map frightenGhost
       else acc.ghosts) ∧
    (pelletStep pl acc p).ghostsEatenThisPowerup =
      (if pelletPicked pl p && p.isPowerPellet then 0 else acc.ghostsEatenThisPowerup) ∧
    (pelletStep pl acc p).player = acc.player ∧
    (pelletStep pl acc p).playerLives = acc.playerLives ∧
    (pelletStep pl acc p).roundState = acc.roundState ∧
    (pelletStep pl acc p).roundStateTimer = acc.roundStateTimer ∧
    (pelletStep pl acc p).gameOver = acc.gameOver ∧
    (pelletStep pl acc p).victory = acc.victory ∧
    (pelletStep pl acc p).walls = acc.walls ∧
    (pelletStep pl acc p).mapWidth = acc.mapWidth ∧
    (pelletStep pl acc p).mapHeight = acc.mapHeight ∧
    (pelletStep pl acc p).mapLoaded = acc.mapLoaded := by
  cases hp : pelletPicked pl p <;> cases hpow : p.isPowerPellet <;>
    simp [pelletStep, pelletTransform, hp, hpow]

/-- Frightening a ghost twice is the same as frightening it once. -/
theorem frightenGhost_idem (g : GhostS) : frightenGhost (frightenGhost g) = frightenGhost g := by
  cases hst : g.state <;> simp [frightenGhost, hst]

/-- Frightening a ghost list twice is the same as frightening it once. -/
theorem map_frighten_idem (gs : List GhostS) :
    (gs.map frightenGhost).map frightenGhost = gs.map frightenGhost := by
  induction gs with
  | nil => rfl
  | cons g gs ih => simp only [List.map_cons, frightenGhost_idem, ih]

/-- Field-by-field effect of the whole pellet loop, for any already-processed
prefix accumulator. -/
theorem pelletFold (pl : PlayerS) (L : List PelletS) (acc : GameState) :
    (L.foldl (pelletStep pl) acc).pellets = acc.pellets ++ L.map (pelletTransform pl) ∧
    (L.foldl (pelletStep pl) acc).activePellets =
      acc.activePellets - ((L.filter (fun p => pelletPicked pl p)).length : Int) ∧
    (L.foldl (pelletStep pl) acc).ghosts =
      (if (L.filter (fun p => pelletPicked pl p && p.isPowerPellet)).length = 0 then
        acc.ghosts else acc.ghosts.map frightenGhost) ∧
    (L.foldl (pelletStep pl) acc).ghostsEatenThisPowerup =
      (if (L.filter (fun p => pelletPicked pl p && p.isPowerPellet)).length = 0 then
        acc.ghostsEatenThisPowerup else 0) ∧
    (L.foldl (pelletStep pl) acc).player = acc.player ∧
    (L.foldl (pelletStep pl) acc).playerLives = acc.playerLives ∧
    (L.foldl (pelletStep pl) acc).roundState = acc.roundState ∧
    (L.foldl (pelletStep pl) acc).roundStateTimer = acc.roundStateTimer ∧
    (L.foldl (pelletStep pl) acc).gameOver = acc.gameOver ∧
    (L.foldl (pelletStep pl) acc).victory = acc.victory ∧
    (L.foldl (pelletStep pl) acc).walls = acc.walls ∧
    (L.foldl (pelletStep pl) acc).mapWidth = acc.mapWidth ∧
    (L.foldl (pelletStep pl) acc).mapHeight = acc.mapHeight ∧
    (L.foldl (pelletStep pl) acc).mapLoaded = acc.mapLoaded := by
  induction L generalizing acc with
  | nil => simp
  | cons p L ih =>
      obtain ⟨h1, h2, h3, h4, h5, h6, h7, h8, h9, h10, h11, h12, h13, h14⟩ :=
        pelletStep_fields pl acc p
      obtain ⟨i1, i2, i3, i4, i5, i6, i7, i8, i9, i10, i11, i12, i13, i14⟩ :=
        ih (pelletStep pl acc p)
      rw [List.foldl_cons]
      by_cases hpp : (pelletPicked pl p && p.isPowerPellet) = true
      · have hp : pelletPicked pl p = true := (Bool.and_eq_true_iff.mp hpp).1
        refine ⟨?_, ?_, ?_, ?_, ?_, ?_, ?_, ?_, ?_, ?_, ?_, ?_, ?_, ?_⟩
        · rw [i1, h1]; simp
        · rw [i2, h2, List.filter_cons]; simp [hp] <;> omega
        · rw [i3, h3, List.filter_cons]
          by_cases hz : (L.filter (fun p => pelletPicked pl p && p.isPowerPellet)).length = 0 <;>
            simp [hpp, hz, map_frighten_idem] <;>
            exact fun a _ => frightenGhost_idem a
        · rw [i4, h4, List.filter_cons]
          by_cases hz : (L.filter (fun p => pelletPicked pl p && p.isPowerPellet)).length = 0 <;>
            simp [hpp, hz]
        · rw [i5, h5]
        · rw [i6, h6]
        · rw [i7, h7]
        · rw [i8, h8]
        · rw [i9, h9]
        · rw [i10, h10]
        · rw [i11, h11]
        · rw [i12, h12]
        · rw [i13, h13]
        · rw [i14, h14]
      · refine ⟨?_, ?_, ?_, ?_, ?_, ?_, ?_, ?_, ?_, ?_, ?_, ?_, ?_, ?_⟩
        · rw [i1, h1]; simp
        · rw [i2, h2, List.filter_cons]
          by_cases hp : pelletPicked pl p = true <;> simp [hp] <;> omega
        · rw [i3, h3, List.filter_cons]; simp [hpp]
        · rw [i4, h4, List.filter_cons]; simp [hpp]
        · rw [i5, h5]
        · rw [i6, h6]
        · rw [i7, h7]
        · rw [i8, h8]
        · rw [i9, h9]
        · rw [i10, h10]
        · rw [i11, h11]
        · rw [i12, h12]
        · rw [i13, h13]
        · rw [i14, h14]

/-- Deactivating exactly the picked pellets lowers the active count by the
picked count. -/
theorem countActive_map_transform (pl : PlayerS) (L : List PelletS) :
    (countActive (L.map (pelletTransform pl)) : Int) =
      (countActive L : Int) - ((L.filter (fun p => pelletPicked pl p)).length : Int) := by
  induction L with
  | nil => simp [countActive]
  | cons p L ih =>
      by_cases hp : pelletPicked pl p = true
      · have hact : p.active = true := by
          have h2 := hp
          unfold pelletPicked at h2
          exact (Bool.and_eq_true_iff.mp h2).1
        simp only [countActive, List.map_cons, List.filter_cons, pelletTransform, hp,
          if_true, hact] at ih ⊢
        simp only [Bool.false_eq_true, if_false, if_true, List.length_cons]
        push_cast
        push_cast at ih
        omega
      · simp only [countActive, List.map_cons, List.filter_cons, pelletTransform, hp,
          if_false] at ih ⊢
        by_cases ha : p.active = true <;> simp [ha] <;> push_cast <;> push_cast at ih <;> omega

/-- C1 counterexample: a concrete playing state in which two chasing ghosts
overlap the player; one update decrements the lives counter by 2, not by
exactly 1, because the collision loop of src/main.cpp lines 374-390 has no
break. -/
theorem c1_counterexample :
    c1State.playerLives = 3 ∧
    c1State.roundState = RoundState.PLAYING ∧
    (c1State.ghosts.all (fun g => decide (g.state = GhostState.CHASING))) = true ∧
    c1State.ghosts.length = 2 ∧
    (Update idleInput (1/60) c1State).playerLives = 1 ∧
    ¬ (Update idleInput (1/60) c1State).playerLives = c1State.playerLives - 1 := by
  have hval : (Update idleInput (1/60) c1State).playerLives = 1 := by
    norm_num [Update, c1State, c1Ghost, idleInput, movePlayerPhase, worldToTile, floorQ,
      vecDistLt, sqDistV, IsWall, wrapPlayerX, playingStep, ghostsPhase, ghostTimerStep,
      ghostMoveStep, chooseGhostDir, greedyStep, possibleDirs, dirTile, sqDistI,
      pelletsPhase, ghostCollisionPhase, ghostColStep, collidesPlayer,
      checkCollisionCircles, victoryPhase, StartNewRound, List.foldl_cons, List.foldl_nil]
  refine ⟨rfl, rfl, rfl, rfl, hval, ?_⟩
  rw [hval]
  norm_num [c1State]

/-- C1 (amended): in one update of the playing state, the collision loop
decrements the lives counter once per overlapping chasing ghost, so k
simultaneously overlapping chasing ghosts cost k lives (exactly 1 only when
k = 1), and the round transitions to dying whenever k is positive. -/
theorem c1_amended_per_ghost_life_loss (s : GameState) :
    (ghostCollisionPhase s).playerLives = s.playerLives - (countCollidingChasing s : Int) ∧
    (ghostCollisionPhase s).roundState =
      (if countCollidingChasing s = 0 then s.roundState else RoundState.PLAYER_DYING) := by
  unfold ghostCollisionPhase countCollidingChasing
  obtain ⟨g1, g2, _⟩ := gcolFold s.player s.ghosts { s with ghosts := [] }
  exact ⟨by rw [g1], by rw [g2]⟩

/-- C2: a power-pellet pickup frightens every non-eaten ghost (timer 7,
speed 3/2, below the base speed 2) and resets the per-powerup eaten counter
to 0; each frightened ghost eaten afterwards awards 100 * 2^n where n is the
running count, so 200 for the first and 400 for the second, doubling. -/
theorem c2_power_pellet_frighten_and_bonus :
    (∀ s : GameState, 0 < countPickedPower s.player s.pellets →
        (pelletsPhase s).ghosts = s.ghosts.map frightenGhost ∧
        (pelletsPhase s).ghostsEatenThisPowerup = 0) ∧
    (∀ g : GhostS, g.state ≠ GhostState.EATEN →
        frightenGhost g =
          { g with state := GhostState.FRIGHTENED, stateTimer := 7, speed := 3/2 }) ∧
    (∀ g : GhostS, g.state = GhostState.EATEN → frightenGhost g = g) ∧
    ((3/2 : ℚ) < 2) ∧
    (∀ s : GameState, (ghostCollisionPhase s).score =
        s.score + bonusSum s.ghostsEatenThisPowerup (countCollidingFrightened s)) ∧
    (∀ n : Int, 0 ≤ n → ghostBonus (n + 1) = 2 * ghostBonus n) ∧
    ghostBonus 1 = 200 ∧ ghostBonus 2 = 400 ∧ bonusSum 0 2 = 600 := by
  refine ⟨?_, ?_, ?_, by norm_num, ?_, ?_, by simp [ghostBonus],
    by simp [ghostBonus], by simp [bonusSum, ghostBonus]⟩
  · intro s hs
    unfold pelletsPhase
    obtain ⟨_, _, p3, p4, _⟩ := pelletFold s.player s.pellets { s with pellets := [] }
    unfold countPickedPower at hs
    exact ⟨by rw [p3, if_neg (by omega)], by rw [p4, if_neg (by omega)]⟩
  · intro g hg; simp [frightenGhost, hg]
  · intro g hg; simp [frightenGhost, hg]
  · intro s
    unfold ghostCollisionPhase countCollidingFrightened
    obtain ⟨_, _, _, _, g5, _⟩ := gcolFold s.player s.ghosts { s with ghosts := [] }
    rw [g5]
  · intro n hn
    unfold ghostBonus
    have ht : (n + 1).toNat = n.toNat + 1 := by omega
    rw [ht, pow_succ]
    ring

/-- C2 witness: concrete power-pellet pickup frightening a chasing ghost and
leaving an eaten one, and two frightened-ghost collisions awarding 200 then
400 points. -/
theorem c2_witness :
    0 < countPickedPower c2StateA.player c2StateA.pellets ∧
    (pelletsPhase c2StateA).ghosts = c2StateA.ghosts.map frightenGhost ∧
    (pelletsPhase c2StateA).ghostsEatenThisPowerup = 0 ∧
    (ghostCollisionPhase c2StateB).score = c2StateB.score + bonusSum 0 2 ∧
    bonusSum 0 2 = 600 ∧
    ghostBonus (1 + 1) = 2 * ghostBonus 1 := by
  have h := c2_power_pellet_frighten_and_bonus
  have hpos : 0 < countPickedPower c2StateA.player c2StateA.pellets := by
    norm_num [countPickedPower, c2StateA, pelletPicked, checkCollisionCircles, sqDistV]
  have hsc := h.2.2.2.2.1 c2StateB
  have hcf : countCollidingFrightened c2StateB = 2 := by
    norm_num [countCollidingFrightened, c2StateB, collidesPlayer, checkCollisionCircles,
      sqDistV]
  have hz : c2StateB.ghostsEatenThisPowerup = 0 := rfl
  rw [hcf, hz] at hsc
  exact ⟨hpos, (h.1 c2StateA hpos).1, (h.1 c2StateA hpos).2, hsc,
    by simp [bonusSum, ghostBonus], h.2.2.2.2.2.1 1 (by norm_num)⟩

/-- C3: the pellet loop deactivates exactly the picked pellets and lowers
the counter by exactly one per pickup; under the counting invariant the
counter equals the number of active pellets and never goes negative; and
when the counter is at or below zero after the pellet loop, the same update
ends with the victory flag set. -/
theorem c3_pellet_depletion_and_victory :
    (∀ s : GameState,
        (pelletsPhase s).pellets = s.pellets.map (pelletTransform s.player) ∧
        (pelletsPhase s).activePellets =
          s.activePellets - (countPicked s.player s.pellets : Int)) ∧
    (∀ s : GameState, s.activePellets = (countActive s.pellets : Int) →
        (pelletsPhase s).activePellets = (countActive (pelletsPhase s).pellets : Int) ∧
        0 ≤ (pelletsPhase s).activePellets) ∧
    (∀ s : GameState, s.activePellets ≤ 0 → (victoryPhase s).victory = true) ∧
    (∀ (dt : ℚ) (s : GameState),
        (pelletsPhase (ghostsPhase dt s)).activePellets ≤ 0 →
        (playingStep dt s).victory = true) := by
  have base : ∀ s : GameState,
      (pelletsPhase s).pellets = s.pellets.map (pelletTransform s.player) ∧
      (pelletsPhase s).activePellets =
        s.activePellets - (countPicked s.player s.pellets : Int) := by
    intro s
    obtain ⟨p1, p2, _⟩ := pelletFold s.player s.pellets { s with pellets := [] }
    unfold pelletsPhase countPicked
    exact ⟨by rw [p1]; simp, by rw [p2]⟩
  refine ⟨base, ?_, ?_, ?_⟩
  · intro s hs
    obtain ⟨hP, hA⟩ := base s
    constructor
    · rw [hA, hP, countActive_map_transform, hs]
      unfold countPicked
      rfl
    · rw [hA, hs]
      unfold countPicked
      rw [← countActive_map_transform s.player s.pellets]
      exact Int.natCast_nonneg _
  · intro s hs
    unfold victoryPhase
    rw [if_pos hs]
    rfl
  · intro dt s h
    have hac : (ghostCollisionPhase (pelletsPhase (ghostsPhase dt s))).activePellets =
        (pelletsPhase (ghostsPhase dt s)).activePellets := by
      unfold ghostCollisionPhase
      obtain ⟨_, _, _, _, _, _, _, _, _, g10, _⟩ :=
        gcolFold (pelletsPhase (ghostsPhase dt s)).player
          (pelletsPhase (ghostsPhase dt s)).ghosts
          { pelletsPhase (ghostsPhase dt s) with ghosts := [] }
      rw [g10]
    unfold playingStep victoryPhase
    rw [if_pos (by rw [hac]; exact h)]
    rfl

/-- C3 witness: a concrete pickup of the last pellet keeps the counter equal
to the active count and nonnegative, and a zero counter raises victory. -/
theorem c3_witness :
    c3State.activePellets = (countActive c3State.pellets : Int) ∧
    (pelletsPhase c3State).activePellets = (countActive (pelletsPhase c3State).pellets : Int) ∧
    0 ≤ (pelletsPhase c3State).activePellets ∧
    c3VState.activePellets ≤ 0 ∧
    (victoryPhase c3VState).victory = true := by
  have h := c3_pellet_depletion_and_victory
  have hinv : c3State.activePellets = (countActive c3State.pellets : Int) := by
    norm_num [c3State, countActive]
  obtain ⟨a1, a2⟩ := h.2.1 c3State hinv
  exact ⟨hinv, a1, a2, by norm_num [c3VState], h.2.2.1 c3VState (by norm_num [c3VState])⟩

/-- C4: a single overlapping chasing ghost costs exactly one life and sends
the round to dying with a 1.5 second timer in the same update while the
game-over flag is untouched; game over is raised only by a later dying-state
update whose decremented timer has expired while no life remains. -/
theorem c4_chasing_collision_then_dying :
    (∀ s : GameState, countCollidingChasing s = 1 →
        (ghostCollisionPhase s).playerLives = s.playerLives - 1 ∧
        (ghostCollisionPhase s).roundState = RoundState.PLAYER_DYING ∧
        (ghostCollisionPhase s).roundStateTimer = 3/2 ∧
        (ghostCollisionPhase s).gameOver = s.gameOver) ∧
    (∀ s : GameState, 0 < s.activePellets → victoryPhase s = s) ∧
    (∀ (dt : ℚ) (s : GameState), s.gameOver = false →
        ((dyingStep dt s).gameOver = true ↔
          s.roundStateTimer - dt ≤ 0 ∧ s.playerLives ≤ 0)) := by
  refine ⟨?_, ?_, ?_⟩
  · intro s h1
    unfold countCollidingChasing at h1
    obtain ⟨g1, g2, g3, _, _, _, g7, _⟩ := gcolFold s.player s.ghosts { s with ghosts := [] }
    unfold ghostCollisionPhase
    refine ⟨by rw [g1, h1]; simp, by rw [g2, if_neg (by omega)],
      by rw [g3, if_neg (by omega)], by rw [g7]⟩
  · intro s hs
    unfold victoryPhase
    rw [if_neg (by omega)]
  · intro dt s hgo
    unfold dyingStep
    by_cases ht : s.roundStateTimer - dt ≤ 0
    · rw [if_pos ht]
      by_cases hl : s.playerLives ≤ 0
      · rw [if_pos hl]; simp [ht, hl]
      · rw [if_neg hl]
        simp only [ResetAfterLifeLost]
        simp [hgo, hl]
    · rw [if_neg ht]
      simp [hgo, ht]

/-- C4 witness: a concrete single chasing collision loses one life and sets
dying without game over, and a concrete expired dying timer with no lives
left raises game over. -/
theorem c4_witness :
    countCollidingChasing c4State = 1 ∧
    (ghostCollisionPhase c4State).playerLives = c4State.playerLives - 1 ∧
    (ghostCollisionPhase c4State).roundState = RoundState.PLAYER_DYING ∧
    (ghostCollisionPhase c4State).gameOver = false ∧
    ((dyingStep 1 c4Dying).gameOver = true ↔
      c4Dying.roundStateTimer - 1 ≤ 0 ∧ c4Dying.playerLives ≤ 0) ∧
    (dyingStep 1 c4Dying).gameOver = true := by
  have h := c4_chasing_collision_then_dying
  have h1 : countCollidingChasing c4State = 1 := by
    norm_num [countCollidingChasing, c4State, collidesPlayer, checkCollisionCircles,
      sqDistV]
  obtain ⟨a1, a2, a3, a4⟩ := h.1 c4State h1
  have h3 := h.2.2 1 c4Dying rfl
  exact ⟨h1, a1, a2, a4, h3, h3.mpr (by constructor <;> norm_num [c4Dying])⟩

/-- C5: a full reset restores 3 lives, zero score, reactivates every pellet
with the counter equal to the total pellet count and enters the ready state;
the restart signal in game over or victory performs exactly this full reset;
a life-loss reset keeps score, lives, the pellet list and the active-pellet
counter unchanged while returning every ghost to chasing and the player to
its spawn position. -/
theorem c5_full_and_life_loss_reset :
    (∀ s : GameState, s.mapLoaded = true →
        (ResetGame s).playerLives = 3 ∧
        (ResetGame s).score = 0 ∧
        ((ResetGame s).pellets.all (fun p => p.active)) = true ∧
        (ResetGame s).activePellets = ((ResetGame s).pellets.length : Int) ∧
        (ResetGame s).roundState = RoundState.READY) ∧
    (∀ (inp : InputS) (dt : ℚ) (s : GameState),
        (s.gameOver = true ∨ s.victory = true) → inp.enterPressed = true →
        Update inp dt s = ResetGame s) ∧
    (∀ s : GameState,
        (ResetAfterLifeLost s).score = s.score ∧
        (ResetAfterLifeLost s).playerLives = s.playerLives ∧
        (ResetAfterLifeLost s).pellets = s.pellets ∧
        (ResetAfterLifeLost s).activePellets = s.activePellets ∧
        ((ResetAfterLifeLost s).ghosts.all
          (fun g => decide (g.state = GhostState.CHASING))) = true ∧
        (ResetAfterLifeLost s).player.position = s.player.startPosition ∧
        (ResetAfterLifeLost s).roundState = RoundState.READY) := by
  refine ⟨?_, ?_, ?_⟩
  · intro s hml
    unfold ResetGame
    rw [if_neg (by simp [hml])]
    refine ⟨rfl, rfl, ?_, ?_, rfl⟩
    · simp [StartNewRound, List.all_eq_true]
    · simp [StartNewRound]
  · intro inp dt s hgv henter
    rcases hgv with h | h <;> simp [Update, h, henter]
  · intro s
    refine ⟨rfl, rfl, rfl, rfl, ?_, rfl, rfl⟩
    simp [ResetAfterLifeLost, List.all_eq_true]

/-- C5 witness: the resets applied to a concrete mid-game state. -/
theorem c5_witness :
    (ResetGame c5State).playerLives = 3 ∧
    (ResetGame c5State).score = 0 ∧
    ((ResetGame c5State).pellets.all (fun p => p.active)) = true ∧
    (ResetGame c5State).roundState = RoundState.READY ∧
    (ResetAfterLifeLost c5State).score = c5State.score ∧
    (ResetAfterLifeLost c5State).playerLives = c5State.playerLives ∧
    (ResetAfterLifeLost c5State).pellets = c5State.pellets ∧
    ((ResetAfterLifeLost c5State).ghosts.all
      (fun g => decide (g.state = GhostState.CHASING))) = true := by
  have h := c5_full_and_life_loss_reset
  obtain ⟨a1, a2, a3, a4, a5⟩ := h.1 c5State rfl
  obtain ⟨b1, b2, b3, b4, b5, b6, b7⟩ := h.2.2 c5State
  exact ⟨a1, a2, a3, a5, b1, b2, b3, b5⟩

/-- C6: IsWall returns true for every coordinate outside the map rectangle,
whatever the wall list holds. -/
theorem c6_iswall_out_of_bounds (mapWidth mapHeight : Int) (walls : List RectQ) (x y : Int)
    (h : x < 0 ∨ x ≥ mapWidth ∨ y < 0 ∨ y ≥ mapHeight) :
    IsWall mapWidth mapHeight walls x y = true := by
  unfold IsWall
  rw [if_pos h]

/-- C6 witness: a concrete out-of-bounds coordinate on a map with a wall
list that does not cover it. -/
theorem c6_witness :
    ((-1 : Int) < 0 ∨ (-1 : Int) ≥ 5 ∨ (0 : Int) < 0 ∨ (0 : Int) ≥ 5) ∧
    IsWall 5 5 [⟨0, 0, 24, 24⟩] (-1) 0 = true :=
  ⟨Or.inl (by norm_num),
   c6_iswall_out_of_bounds 5 5 [⟨0, 0, 24, 24⟩] (-1) 0 (Or.inl (by norm_num))⟩

/-- C9: when the level file cannot be opened, loading clears the entity
lists, flags the map as not loaded with a nonempty diagnostic, leaves the
player record untouched, and the update step then changes nothing at all:
the restart signal runs ResetGame, which refuses to act without a map. -/
theorem c9_load_failure_safe (s : GameState) :
    (LoadMap none s).mapLoaded = false ∧
    (LoadMap none s).loadErrorText = "ERROR: level.txt not found!" ∧
    ¬ (LoadMap none s).loadErrorText = "" ∧
    (LoadMap none s).ghosts = [] ∧
    (LoadMap none s).walls = [] ∧
    (LoadMap none s).pellets = [] ∧
    (LoadMap none s).player = s.player ∧
    ResetGame (LoadMap none s) = LoadMap none s ∧
    (∀ (inp : InputS) (dt : ℚ), Update inp dt (LoadMap none s) = LoadMap none s) := by
  have hml : (LoadMap none s).mapLoaded = false := rfl
  have hrg : ResetGame (LoadMap none s) = LoadMap none s := by
    simp [ResetGame, hml]
  refine ⟨rfl, rfl, ?_, rfl, rfl, rfl, rfl, hrg, ?_⟩
  · have h2 : (LoadMap none s).loadErrorText = "ERROR: level.txt not found!" := rfl
    rw [h2]
    decide
  · intro inp dt
    simp [Update, hml, hrg]

/-- C10: during ready and playing the advanced player position is wrapped
horizontally only: an x below -12 jumps just past the right edge, an x past
the right edge plus half a tile jumps to -12, and the y coordinate always
passes through unchanged. -/
theorem c10_horizontal_tunnel_wrap :
    (∀ (w : Int) (p : Vec2), p.x < -12 → wrapPlayerX w p = ⟨(w : ℚ) * 24 + 12, p.y⟩) ∧
    (∀ (w : Int) (p : Vec2), 0 ≤ w → p.x > (w : ℚ) * 24 + 12 → wrapPlayerX w p = ⟨-12, p.y⟩) ∧
    (∀ (w : Int) (p : Vec2), (wrapPlayerX w p).y = p.y) ∧
    (∀ (inp : InputS) (s : GameState), ∃ q : Vec2,
        (movePlayerPhase inp s).player.position = wrapPlayerX s.mapWidth q) := by
  refine ⟨?_, ?_, ?_, ?_⟩
  · intro w p h
    simp only [wrapPlayerX]
    rw [if_pos h, if_neg (by simp)]
  · intro w p hw h
    have hwq : (0 : ℚ) ≤ (w : ℚ) := by exact_mod_cast hw
    have hnot : ¬ p.x < -12 := by linarith
    simp only [wrapPlayerX]
    rw [if_neg hnot, if_pos h]
  · intro w p
    simp only [wrapPlayerX]
  · intro inp s
    exact ⟨_, rfl⟩

/-- C10 witness: concrete wraps on a width-5 map. -/
theorem c10_witness :
    wrapPlayerX 5 ⟨-20, 7⟩ = ⟨132, 7⟩ ∧ wrapPlayerX 5 ⟨140, 7⟩ = ⟨-12, 7⟩ := by
  have h := c10_horizontal_tunnel_wrap
  constructor
  · rw [h.1 5 ⟨-20, 7⟩ (by norm_num)]
    norm_num
  · rw [h.2.1 5 ⟨140, 7⟩ (by norm_num) (by norm_num)]

/-- One greedy candidate never increases the best distance so far. -/
theorem greedyStep_fst_le (isW : Int → Int → Bool) (gt pt : Int × Int) (opp : Vec2)
    (acc : Int × Vec2) (d : Vec2) :
    (greedyStep isW gt pt opp acc d).1 ≤ acc.1 := by
  simp only [greedyStep]
  split_ifs with h1 h2 h3 <;> simp <;> omega

/-- The greedy fold never increases the best distance so far. -/
theorem greedyFold_fst_le (isW : Int → Int → Bool) (gt pt : Int × Int) (opp : Vec2)
    (L : List Vec2) (acc : Int × Vec2) :
    (L.foldl (greedyStep isW gt pt opp) acc).1 ≤ acc.1 := by
  induction L generalizing acc with
  | nil => simp
  | cons e L ih => exact le_trans (ih _) (greedyStep_fst_le isW gt pt opp acc e)

/-- The greedy fold result is at most the distance of any legal candidate
in the list. -/
theorem greedyFold_le (isW : Int → Int → Bool) (gt pt : Int × Int) (opp : Vec2)
    (L : List Vec2) (acc : Int × Vec2) (d : Vec2) (hd : d ∈ L)
    (ho : ¬(d.x = opp.x ∧ d.y = opp.y))
    (hw : isW (dirTile gt d).1 (dirTile gt d).2 = false) :
    (L.foldl (greedyStep isW gt pt opp) acc).1 ≤ sqDistI (dirTile gt d) pt := by
  induction L generalizing acc with
  | nil => cases hd
  | cons e L ih =>
      rw [List.foldl_cons]
      rcases List.mem_cons.mp hd with rfl | hmem
      · refine le_trans (greedyFold_fst_le isW gt pt opp L _) ?_
        have hb : (decide (d.x = opp.x) && decide (d.y = opp.y)) = false := by
          rcases not_and_or.mp ho with h | h <;> simp [h]
        simp only [greedyStep, hb, Bool.false_eq_true, if_false, hw]
        split_ifs with h3 <;> simp <;> omega
      · exact ih _ hmem

/-- The greedy fold either keeps the accumulator or returns a legal
candidate realizing its recorded distance. -/
theorem greedyFold_mem (isW : Int → Int → Bool) (gt pt : Int × Int) (opp : Vec2)
    (L : List Vec2) (acc : Int × Vec2) :
    (L.foldl (greedyStep isW gt pt opp) acc) = acc ∨
    ∃ e ∈ L, (¬(e.x = opp.x ∧ e.y = opp.y)) ∧
      isW (dirTile gt e).1 (dirTile gt e).2 = false ∧
      (L.foldl (greedyStep isW gt pt opp) acc).1 = sqDistI (dirTile gt e) pt ∧
      (L.foldl (greedyStep isW gt pt opp) acc).2 = e := by
  induction L generalizing acc with
  | nil => left; rfl
  | cons e L ih =>
      rw [List.foldl_cons]
      rcases ih (greedyStep isW gt pt opp acc e) with heq | ⟨f, hf, h1, h2, h3, h4⟩
      · rw [heq]
        cases hb : (decide (e.x = opp.x) && decide (e.y = opp.y)) with
        | true => left; simp [greedyStep, hb]
        | false =>
            cases hw : isW (dirTile gt e).1 (dirTile gt e).2 with
            | true => left; simp [greedyStep, hb, hw]
            | false =>
                by_cases h3 : sqDistI (dirTile gt e) pt < acc.1
                · right
                  refine ⟨e, List.mem_cons_self e L, ?_, hw, ?_, ?_⟩
                  · intro ⟨hx, hy⟩
                    simp [hx, hy] at hb
                  · simp [greedyStep, hb, hw, h3]
                  · simp [greedyStep, hb, hw, h3]
                · left; simp [greedyStep, hb, hw, h3]
      · right
        exact ⟨f, List.mem_cons_of_mem e hf, h1, h2, h3, h4⟩

/-- With no legal candidate in the list, the greedy fold keeps the
accumulator. -/
theorem greedyFold_keep (isW : Int → Int → Bool) (gt pt : Int × Int) (opp : Vec2)
    (L : List Vec2) (acc : Int × Vec2)
    (h : ∀ d ∈ L, (d.x = opp.x ∧ d.y = opp.y) ∨ isW (dirTile gt d).1 (dirTile gt d).2 = true) :
    L.foldl (greedyStep isW gt pt opp) acc = acc := by
  induction L generalizing acc with
  | nil => rfl
  | cons e L ih =>
      rw [List.foldl_cons]
      have hstep : greedyStep isW gt pt opp acc e = acc := by
        rcases h e (List.mem_cons_self e L) with ⟨hx, hy⟩ | hw
        · simp [greedyStep, hx, hy]
        · simp [greedyStep, hw]
      rw [hstep]
      exact ih _ (fun d hd => h d (List.mem_cons_of_mem e hd))

/-- C7: at a tile-aligned instant the ghost direction choice is the greedy
local search of src/main.cpp lines 333-350: among the four candidate
directions that are neither the immediate reverse of the current heading nor
blocked by a wall, it returns one minimizing the distance from the neighbor
tile to the player tile; when no such direction exists it keeps the current
heading.  The smallness hypothesis embeds the 10000.0f initial bound of the
source, far above any distance arising on a loadable map. -/
theorem c7_ghost_greedy_direction (isW : Int → Int → Bool) (gt pt : Int × Int) (cur : Vec2)
    (hsmall : ∀ d ∈ possibleDirs, sqDistI (dirTile gt d) pt < 100000000) :
    ((∃ d, legalDir isW gt cur d) →
        legalDir isW gt cur (chooseGhostDir isW gt pt cur) ∧
        (∀ d, legalDir isW gt cur d →
          sqDistI (dirTile gt (chooseGhostDir isW gt pt cur)) pt ≤
            sqDistI (dirTile gt d) pt)) ∧
    ((¬ ∃ d, legalDir isW gt cur d) → chooseGhostDir isW gt pt cur = cur) := by
  constructor
  · rintro ⟨d0, hd0m, hd0o, hd0w⟩
    have hle := greedyFold_le isW gt pt ⟨-cur.x, -cur.y⟩ possibleDirs
      (100000000, ⟨0, 0⟩) d0 hd0m hd0o hd0w
    rcases greedyFold_mem isW gt pt ⟨-cur.x, -cur.y⟩ possibleDirs (100000000, ⟨0, 0⟩) with
      heq | ⟨e, hem, heo, hew, he1, he2⟩
    · exfalso
      rw [heq] at hle
      have hs := hsmall d0 hd0m
      simp at hle
      omega
    · have hguard : (decide (e.x ≠ 0) || decide (e.y ≠ 0)) = true := by
        fin_cases hem <;> norm_num
      have hcd : chooseGhostDir isW gt pt cur = e := by
        simp only [chooseGhostDir]
        rw [he2, hguard]
        simp
      rw [hcd]
      refine ⟨⟨hem, heo, hew⟩, ?_⟩
      intro d hd
      rw [← he1]
      exact greedyFold_le isW gt pt ⟨-cur.x, -cur.y⟩ possibleDirs
        (100000000, ⟨0, 0⟩) d hd.1 hd.2.1 hd.2.2
  · intro hno
    have hall : ∀ d ∈ possibleDirs,
        (d.x = (⟨-cur.x, -cur.y⟩ : Vec2).x ∧ d.y = (⟨-cur.x, -cur.y⟩ : Vec2).y) ∨
        isW (dirTile gt d).1 (dirTile gt d).2 = true := by
      intro d hd
      by_cases ho : d.x = -cur.x ∧ d.y = -cur.y
      · exact Or.inl ho
      · right
        by_cases hw : isW (dirTile gt d).1 (dirTile gt d).2 = true
        · exact hw
        · exact absurd ⟨d, hd, ho, by simpa using hw⟩ hno
    have hk := greedyFold_keep isW gt pt ⟨-cur.x, -cur.y⟩ possibleDirs
      (100000000, ⟨0, 0⟩) hall
    simp only [chooseGhostDir]
    rw [hk]
    norm_num

/-- C7 witness: on an open 5 by 5 map with the player two tiles to the
left, a ghost heading left keeps a legal direction and minimizes the tile
distance. -/
theorem c7_witness :
    legalDir (fun x y => decide (x < 0 ∨ 5 ≤ x ∨ y < 0 ∨ 5 ≤ y)) (2, 2) ⟨-1, 0⟩
      (chooseGhostDir (fun x y => decide (x < 0 ∨ 5 ≤ x ∨ y < 0 ∨ 5 ≤ y)) (2, 2) (0, 2)
        ⟨-1, 0⟩) ∧
    ∀ d, legalDir (fun x y => decide (x < 0 ∨ 5 ≤ x ∨ y < 0 ∨ 5 ≤ y)) (2, 2) ⟨-1, 0⟩ d →
      sqDistI (dirTile (2, 2)
          (chooseGhostDir (fun x y => decide (x < 0 ∨ 5 ≤ x ∨ y < 0 ∨ 5 ≤ y)) (2, 2) (0, 2)
            ⟨-1, 0⟩)) (0, 2) ≤
        sqDistI (dirTile (2, 2) d) (0, 2) := by
  have hsmall : ∀ d ∈ possibleDirs,
      sqDistI (dirTile (2, 2) d) (0, 2) < 100000000 := by
    intro d hd
    fin_cases hd <;> norm_num [sqDistI, dirTile, floorQ]
  have hex : ∃ d, legalDir (fun x y => decide (x < 0 ∨ 5 ≤ x ∨ y < 0 ∨ 5 ≤ y)) (2, 2)
      (⟨-1, 0⟩ : Vec2) d := by
    refine ⟨⟨-1, 0⟩, ?_, ?_, ?_⟩
    · simp [possibleDirs]
    · norm_num
    · norm_num [dirTile, floorQ]
  exact (c7_ghost_greedy_direction (fun x y => decide (x < 0 ∨ 5 ≤ x ∨ y < 0 ∨ 5 ≤ y))
    (2, 2) (0, 2) ⟨-1, 0⟩ hsmall).1 hex

end PacmanChannel

namespace PacmanLegends

/-- Arena read after write at the written index. -/
theorem getNode_set_self (ns : List ANode) (i : Nat) (v : ANode) (h : i < ns.length) :
    getNode (ns.set i v) i = v := by
  unfold getNode
  rw [List.getD_eq_getElem?_getD, List.getElem?_set_self h]
  rfl

/-- Arena read after write at another index. -/
theorem getNode_set_ne (ns : List ANode) (i j : Nat) (v : ANode) (h : i ≠ j) :
    getNode (ns.set i v) j = getNode ns j := by
  unfold getNode
  rw [List.getD_eq_getElem?_getD, List.getElem?_set_ne h, ← List.getD_eq_getElem?_getD]

/-- The strict cost order is irreflexive. -/
theorem qltB_irrefl (a : Option ℚ) : qltB a a = false := by
  cases a with
  | none => rfl
  | some x => simp [qltB]

/-- Two costs cannot each be strictly below the other. -/
theorem qltB_asymm (a b : Option ℚ) (h1 : qltB a b = true) (h2 : qltB b a = true) : False := by
  cases a <;> cases b <;> simp [qltB] at h1 h2
  exact absurd (lt_trans h1 h2) (lt_irrefl _)

/-- The strict cost order is connected through any middle cost. -/
theorem qltB_conn (a b c : Option ℚ) (h : qltB a c = true) :
    qltB a b = true ∨ qltB b c = true := by
  cases a with
  | none => simp [qltB] at h
  | some x =>
      cases b with
      | none => left; rfl
      | some y =>
          cases c with
          | none => right; rfl
          | some z =>
              simp [qltB] at h ⊢
              rcases lt_or_le x y with hxy | hyx
              · exact Or.inl hxy
              · exact Or.inr (lt_of_le_of_lt hyx h)

/-- The sort comparator is total. -/
theorem nodeLe_total (ns : List ANode) (a b : Nat) :
    (nodeLe ns a b || nodeLe ns b a) = true := by
  unfold nodeLe
  by_cases h1 : qltB (getNode ns b).globalGoal (getNode ns a).globalGoal = true
  · by_cases h2 : qltB (getNode ns a).globalGoal (getNode ns b).globalGoal = true
    · exact (qltB_asymm _ _ h1 h2).elim
    · simp [Bool.not_eq_true] at h2
      simp [h2]
  · simp [Bool.not_eq_true] at h1
    simp [h1]

/-- The sort comparator is transitive. -/
theorem nodeLe_trans (ns : List ANode) (a b c : Nat)
    (h1 : nodeLe ns a b = true) (h2 : nodeLe ns b c = true) : nodeLe ns a c = true := by
  unfold nodeLe at h1 h2 ⊢
  by_cases h3 : qltB (getNode ns c).globalGoal (getNode ns a).globalGoal = true
  · rcases qltB_conn _ (getNode ns b).globalGoal _ h3 with h | h
    · rw [h] at h2; simp at h2
    · rw [h] at h1; simp at h1
  · simp [Bool.not_eq_true] at h3
    simp [h3]

/-- The head of a dropWhile survivor fails the predicate. -/
theorem dropWhile_head_false {α : Type} (p : α → Bool) (l : List α) (c : α) (cs : List α)
    (h : l.dropWhile p = c :: cs) : p c = false := by
  induction l with
  | nil => simp at h
  | cons a l ih =>
      rw [List.dropWhile_cons] at h
      by_cases hp : p a = true
      · rw [if_pos hp] at h
        exact ih h
      · rw [if_neg hp] at h
        cases h
        exact Bool.not_eq_true _ |>.mp hp

/-- Counting unvisited nodes respects pointwise agreement of visited flags. -/
theorem unvisitedCount_congr (ns₁ : List ANode) :
    ∀ ns₂ : List ANode, ns₁.length = ns₂.length →
    (∀ k, (getNode ns₁ k).isVisited = (getNode ns₂ k).isVisited) →
    unvisitedCount ns₁ = unvisitedCount ns₂ := by
  induction ns₁ with
  | nil =>
      intro ns₂ hlen _
      cases ns₂ with
      | nil => rfl
      | cons b m => simp at hlen
  | cons a l ih =>
      intro ns₂ hlen h
      cases ns₂ with
      | nil => simp at hlen
      | cons b m =>
          have h0 : a.isVisited = b.isVisited := by
            have := h 0
            simpa [getNode] using this
          have hrest : unvisitedCount l = unvisitedCount m :=
            ih m (by simpa using hlen) (fun k => by simpa [getNode] using h (k + 1))
          unfold unvisitedCount at hrest ⊢
          rw [List.countP_cons, List.countP_cons, hrest, h0]

/-- Marking an unvisited node visited strictly lowers the unvisited count. -/
theorem unvisitedCount_set_visited (ns : List ANode) :
    ∀ (i : Nat) (v : ANode), i < ns.length →
    (getNode ns i).isVisited = false → v.isVisited = true →
    unvisitedCount (ns.set i v) < unvisitedCount ns := by
  induction ns with
  | nil => intro i v h _ _; simp at h
  | cons a l ih =>
      intro i v hlen hun hv
      cases i with
      | zero =>
          have ha : a.isVisited = false := by simpa [getNode] using hun
          unfold unvisitedCount
          simp only [List.set_cons_zero, List.countP_cons, ha, hv]
          simp
      | succ n =>
          have hrec := ih n v (by simpa using hlen) (by simpa [getNode] using hun) hv
          unfold unvisitedCount at hrec ⊢
          simp only [List.set_cons_succ, List.countP_cons]
          omega

/-- Setting a node that keeps its visited flag changes no visited flag. -/
theorem getNode_set_keep_visited (ns : List ANode) (j k : Nat) (v : ANode)
    (hv : v.isVisited = (getNode ns j).isVisited) :
    (getNode (ns.set j v) k).isVisited = (getNode ns k).isVisited := by
  by_cases hlen : j < ns.length
  · by_cases hkj : j = k
    · subst hkj; rw [getNode_set_self _ _ _ hlen, hv]
    · rw [getNode_set_ne _ _ _ _ hkj]
  · rw [List.set_eq_of_length_le (le_of_not_lt hlen)]

/-- Setting a node that keeps its obstacle flag changes no obstacle flag. -/
theorem getNode_set_keep_obstacle (ns : List ANode) (j k : Nat) (v : ANode)
    (hv : v.isObstacle = (getNode ns j).isObstacle) :
    (getNode (ns.set j v) k).isObstacle = (getNode ns k).isObstacle := by
  by_cases hlen : j < ns.length
  · by_cases hkj : j = k
    · subst hkj; rw [getNode_set_self _ _ _ hlen, hv]
    · rw [getNode_set_ne _ _ _ _ hkj]
  · rw [List.set_eq_of_length_le (le_of_not_lt hlen)]

/-- Processing one neighbor never changes any visited flag. -/
theorem processNeighbor_isVisited (hfun : Nat → ℚ) (cur : Nat) (st : AState) (j : Nat)
    (k : Nat) :
    (getNode (processNeighbor hfun cur st j).nodes k).isVisited =
      (getNode st.nodes k).isVisited := by
  simp only [processNeighbor]
  split_ifs <;>
    first
      | rfl
      | exact getNode_set_keep_visited st.nodes j k _ rfl

/-- Processing one neighbor never changes any obstacle flag. -/
theorem processNeighbor_isObstacle (hfun : Nat → ℚ) (cur : Nat) (st : AState) (j : Nat)
    (k : Nat) :
    (getNode (processNeighbor hfun cur st j).nodes k).isObstacle =
      (getNode st.nodes k).isObstacle := by
  simp only [processNeighbor]
  split_ifs <;>
    first
      | rfl
      | exact getNode_set_keep_obstacle st.nodes j k _ rfl

/-- Processing one neighbor keeps the arena size. -/
theorem processNeighbor_length (hfun : Nat → ℚ) (cur : Nat) (st : AState) (j : Nat) :
    (processNeighbor hfun cur st j).nodes.length = st.nodes.length := by
  simp only [processNeighbor]
  split_ifs with hrel <;> simp

/-- Processing one neighbor either keeps the open list or pushes that
neighbor, and pushes only unvisited non-obstacle neighbors. -/
theorem processNeighbor_open (hfun : Nat → ℚ) (cur : Nat) (st : AState) (j : Nat) :
    (processNeighbor hfun cur st j).listNotTestedNodes = st.listNotTestedNodes ∨
    ((getNode st.nodes j).isVisited = false ∧ (getNode st.nodes j).isObstacle = false ∧
      (processNeighbor hfun cur st j).listNotTestedNodes =
        st.listNotTestedNodes ++ [j]) := by
  simp only [processNeighbor]
  by_cases hp : (!(getNode st.nodes j).isVisited && !(getNode st.nodes j).isObstacle) = true
  · right
    have h1 := (Bool.and_eq_true_iff.mp hp).1
    have h2 := (Bool.and_eq_true_iff.mp hp).2
    refine ⟨by simpa using h1, by simpa using h2, ?_⟩
    split_ifs <;> simp [hp]
  · left
    split_ifs <;> simp [hp]

/-- The neighbor loop changes no visited or obstacle flag, keeps the arena
size, and only appends unvisited non-obstacle list members to the open
list. -/
theorem nbrsFold_props (hfun : Nat → ℚ) (cur : Nat) (L : List Nat) :
    ∀ st : AState,
    (∀ k, (getNode (L.foldl (processNeighbor hfun cur) st).nodes k).isVisited =
        (getNode st.nodes k).isVisited) ∧
    (∀ k, (getNode (L.foldl (processNeighbor hfun cur) st).nodes k).isObstacle =
        (getNode st.nodes k).isObstacle) ∧
    (L.foldl (processNeighbor hfun cur) st).nodes.length = st.nodes.length ∧
    (∀ i ∈ (L.foldl (processNeighbor hfun cur) st).listNotTestedNodes,
        i ∈ st.listNotTestedNodes ∨
        (i ∈ L ∧ (getNode st.nodes i).isObstacle = false)) := by
  induction L with
  | nil => intro st; exact ⟨fun k => rfl, fun k => rfl, rfl, fun i hi => Or.inl hi⟩
  | cons e L ih =>
      intro st
      obtain ⟨i1, i2, i3, i4⟩ := ih (processNeighbor hfun cur st e)
      rw [List.foldl_cons]
      refine ⟨?_, ?_, ?_, ?_⟩
      · intro k; rw [i1 k, processNeighbor_isVisited]
      · intro k; rw [i2 k, processNeighbor_isObstacle]
      · rw [i3, processNeighbor_length]
      · intro i hi
        rcases i4 i hi with hmem | ⟨hL, hobs⟩
        · rcases processNeighbor_open hfun cur st e with ho | ⟨hv, hob, ho⟩
          · rw [ho] at hmem
            exact Or.inl hmem
          · rw [ho] at hmem
            rcases List.mem_append.mp hmem with hmem2 | hmem2
            · exact Or.inl hmem2
            · have : i = e := by simpa using hmem2
              subst this
              exact Or.inr ⟨List.mem_cons_self i L, hob⟩
        · right
          refine ⟨List.mem_cons_of_mem e hL, ?_⟩
          rw [← processNeighbor_isObstacle hfun cur st e i]
          exact hobs

/-- A list head is a member. -/
theorem head?_mem {α : Type} {l : List α} {a : α} (h : l.head? = some a) : a ∈ l := by
  cases l with
  | nil => simp at h
  | cons b m =>
      have hb : b = a := by simpa using h
      subst hb
      exact List.mem_cons_self b m

/-- When the goal is not in the open list, a halting iteration always ends
with an empty open list (the loop stops only by exhausting the open list). -/
theorem astarStep_halt_open (hfun : Nat → ℚ) (nbrs : Nat → List Nat) (goal : Nat)
    (st st' : AState)
    (hstep : astarStep hfun nbrs goal st = StepResult.halt st')
    (hng : goal ∉ st.listNotTestedNodes) :
    st'.listNotTestedNodes = [] := by
  unfold astarStep at hstep
  cases hh : st.listNotTestedNodes.head? with
  | none =>
      simp only [hh] at hstep
      injection hstep with hs
      rw [← hs]
      exact List.head?_eq_none_iff.mp hh
  | some front =>
      simp only [hh] at hstep
      have hfg : ¬ front = goal := fun h => hng (h ▸ head?_mem hh)
      rw [if_neg hfg] at hstep
      cases hd : (st.listNotTestedNodes.mergeSort (nodeLe st.nodes)).dropWhile
          (fun i => (getNode st.nodes i).isVisited) with
      | nil =>
          simp only [hd] at hstep
          injection hstep with hs
          rw [← hs]
      | cons c rest =>
          simp only [hd] at hstep
          cases hstep

/-- The facts established by one expanding iteration: the expanded node is
an unvisited member of the open list of minimal global goal among unvisited
members; it gets marked visited; visited flags only grow; obstacle flags and
the arena size are unchanged; open-list growth is limited to non-obstacle
neighbors of the expanded node; and the unvisited count strictly drops. -/
theorem astarStep_expanded_facts (hfun : Nat → ℚ) (nbrs : Nat → List Nat) (goal : Nat)
    (st : AState) (cur : Nat) (st' : AState)
    (hstep : astarStep hfun nbrs goal st = StepResult.expanded cur st') :
    cur ∈ st.listNotTestedNodes ∧
    (getNode st.nodes cur).isVisited = false ∧
    (∀ j ∈ st.listNotTestedNodes, (getNode st.nodes j).isVisited = false →
        qltB (getNode st.nodes j).globalGoal (getNode st.nodes cur).globalGoal = false) ∧
    (cur < st.nodes.length → (getNode st'.nodes cur).isVisited = true) ∧
    (∀ k, (getNode st.nodes k).isVisited = true → (getNode st'.nodes k).isVisited = true) ∧
    (∀ k, (getNode st'.nodes k).isObstacle = (getNode st.nodes k).isObstacle) ∧
    st'.nodes.length = st.nodes.length ∧
    (∀ i ∈ st'.listNotTestedNodes, i ∈ st.listNotTestedNodes ∨
        (i ∈ nbrs cur ∧ (getNode st.nodes i).isObstacle = false)) ∧
    (cur < st.nodes.length → unvisitedCount st'.nodes < unvisitedCount st.nodes) := by
  unfold astarStep at hstep
  cases hh : st.listNotTestedNodes.head? with
  | none => simp only [hh] at hstep; cases hstep
  | some front =>
      simp only [hh] at hstep
      by_cases hfg : front = goal
      · rw [if_pos hfg] at hstep; cases hstep
      · rw [if_neg hfg] at hstep
        cases hd : (st.listNotTestedNodes.mergeSort (nodeLe st.nodes)).dropWhile
            (fun i => (getNode st.nodes i).isVisited) with
        | nil => simp only [hd] at hstep; cases hstep
        | cons c rest =>
            simp only [hd] at hstep
            injection hstep with hc hs
            subst hc
            subst hs
            have hperm := List.mergeSort_perm st.listNotTestedNodes (nodeLe st.nodes)
            have hsorted := List.sorted_mergeSort (nodeLe_trans st.nodes)
              (nodeLe_total st.nodes) st.listNotTestedNodes
            have hsplit := List.takeWhile_append_dropWhile
              (fun i => (getNode st.nodes i).isVisited)
              (st.listNotTestedNodes.mergeSort (nodeLe st.nodes))
            rw [hd] at hsplit
            have hcv : (getNode st.nodes c).isVisited = false := by
              have hx := dropWhile_head_false (fun i => (getNode st.nodes i).isVisited)
                (st.listNotTestedNodes.mergeSort (nodeLe st.nodes)) c rest hd
              simpa using hx
            have hmem_sorted : c ∈ st.listNotTestedNodes.mergeSort (nodeLe st.nodes) := by
              rw [← hsplit]
              exact List.mem_append_right _ (List.mem_cons_self c rest)
            have hcur_mem : c ∈ st.listNotTestedNodes := hperm.mem_iff.mp hmem_sorted
            have hsub : (c :: rest).Sublist
                (st.listNotTestedNodes.mergeSort (nodeLe st.nodes)) := by
              rw [← hsplit]
              exact List.sublist_append_right _ _
            have hpair := List.Pairwise.sublist hsub hsorted
            have hmin : ∀ j ∈ st.listNotTestedNodes,
                (getNode st.nodes j).isVisited = false →
                qltB (getNode st.nodes j).globalGoal
                  (getNode st.nodes c).globalGoal = false := by
              intro j hj hjv
              have hjs : j ∈ st.listNotTestedNodes.mergeSort (nodeLe st.nodes) :=
                hperm.mem_iff.mpr hj
              rw [← hsplit] at hjs
              rcases List.mem_append.mp hjs with hjt | hjd
              · have := List.mem_takeWhile_imp hjt
                simp only [hjv] at this
                cases this
              · rcases List.mem_cons.mp hjd with rfl | hjr
                · exact qltB_irrefl _
                · have hle := (List.pairwise_cons.mp hpair).1 j hjr
                  unfold nodeLe at hle
                  simpa using hle
            obtain ⟨f1, f2, f3, f4⟩ := nbrsFold_props hfun c (nbrs c)
              { nodes := st.nodes.set c { getNode st.nodes c with isVisited := true },
                listNotTestedNodes := c :: rest }
            refine ⟨hcur_mem, hcv, hmin, ?_, ?_, ?_, ?_, ?_, ?_⟩
            · intro hlen
              rw [f1 c]
              show (getNode (st.nodes.set c _) c).isVisited = true
              rw [getNode_set_self _ _ _ hlen]
            · intro k hk
              rw [f1 k]
              show (getNode (st.nodes.set c _) k).isVisited = true
              by_cases hkc : c = k
              · subst hkc
                by_cases hlen : c < st.nodes.length
                · rw [getNode_set_self _ _ _ hlen]
                · rw [List.set_eq_of_length_le (le_of_not_lt hlen)]
                  exact hk
              · rw [getNode_set_ne _ _ _ _ hkc]
                exact hk
            · intro k
              rw [f2 k]
              exact getNode_set_keep_obstacle st.nodes c k _ rfl
            · rw [f3]
              exact List.length_set st.nodes c _
            · intro i hi
              rcases f4 i hi with hmem | ⟨hnb, hobs⟩
              · left
                have : i ∈ st.listNotTestedNodes.mergeSort (nodeLe st.nodes) := by
                  rw [← hsplit]
                  exact List.mem_append_right _ hmem
                exact hperm.mem_iff.mp this
              · right
                refine ⟨hnb, ?_⟩
                rw [← getNode_set_keep_obstacle st.nodes c i
                  { getNode st.nodes c with isVisited := true } rfl]
                exact hobs
            · intro hlen
              have hcongr : unvisitedCount
                  ((nbrs c).foldl (processNeighbor hfun c)
                    { nodes := st.nodes.set c
                        { getNode st.nodes c with isVisited := true },
                      listNotTestedNodes := c :: rest }).nodes =
                  unvisitedCount (st.nodes.set c
                    { getNode st.nodes c with isVisited := true }) := by
                apply unvisitedCount_congr _ _ f3 f1
              rw [hcongr]
              exact unvisitedCount_set_visited st.nodes c _ hlen hcv rfl

/-- The per-query reset keeps each node, with the search fields cleared. -/
theorem resetNodes_getNode (ns : List ANode) : ∀ k, getNode (resetNodes ns) k =
    ⟨(getNode ns k).isObstacle, false, none, none, none⟩ := by
  induction ns with
  | nil => intro k; cases k <;> rfl
  | cons a l ih =>
      intro k
      cases k with
      | zero => rfl
      | succ n => simpa [resetNodes, getNode] using ih n

/-- Search initialization keeps the arena size. -/
theorem astarInit_length (g0 : ℚ) (start : Nat) (ns : List ANode) :
    (astarInit g0 start ns).nodes.length = ns.length := by
  simp [astarInit, resetNodes]

/-- Search initialization keeps every obstacle flag. -/
theorem astarInit_obstacle (g0 : ℚ) (start : Nat) (ns : List ANode) (k : Nat) :
    (getNode (astarInit g0 start ns).nodes k).isObstacle =
      (getNode ns k).isObstacle := by
  have h1 : (getNode (astarInit g0 start ns).nodes k).isObstacle =
      (getNode (resetNodes ns) k).isObstacle := by
    apply getNode_set_keep_obstacle
    rfl
  rw [h1, resetNodes_getNode]

/-- Each iteration of the loop, while the goal stays outside the open list,
either stops with an empty open list or expands a fresh node; with fuel
beyond the unvisited count and an unreachable goal, the loop therefore ends
with an empty open list. -/
theorem astarLoop_unreachable_empty (hfun : Nat → ℚ) (nbrs : Nat → List Nat)
    (start goal : Nat) (obs : Nat → Bool) :
    ∀ (fuel : Nat) (st : AState),
    (∀ k, (getNode st.nodes k).isObstacle = obs k) →
    (∀ i ∈ st.listNotTestedNodes, ReachableFrom nbrs obs start i) →
    (∀ i ∈ st.listNotTestedNodes, i < st.nodes.length) →
    (∀ i, i < st.nodes.length → ∀ j ∈ nbrs i, j < st.nodes.length) →
    ¬ ReachableFrom nbrs obs start goal →
    unvisitedCount st.nodes < fuel →
    (astarLoop hfun nbrs goal fuel st).listNotTestedNodes = [] := by
  intro fuel
  induction fuel with
  | zero => intro st _ _ _ _ _ hcount; omega
  | succ fuel ih =>
      intro st hobs hreach hvalid hnbrs hng hcount
      have hngoal : goal ∉ st.listNotTestedNodes := fun hmem => hng (hreach goal hmem)
      cases hstep : astarStep hfun nbrs goal st with
      | halt st2 =>
          simp only [astarLoop, hstep]
          exact astarStep_halt_open hfun nbrs goal st st2 hstep hngoal
      | expanded cur st2 =>
          simp only [astarLoop, hstep]
          obtain ⟨m1, m2, m3, m4, m5, m6, m7, m8, m9⟩ :=
            astarStep_expanded_facts hfun nbrs goal st cur st2 hstep
          have hcl : cur < st.nodes.length := hvalid cur m1
          apply ih st2
          · intro k; rw [m6]; exact hobs k
          · intro i hi
            rcases m8 i hi with hmem | ⟨hnb, hib⟩
            · exact hreach i hmem
            · exact Relation.ReflTransGen.tail (hreach cur m1)
                ⟨hnb, by rw [← hobs i]; exact hib⟩
          · intro i hi
            rw [m7]
            rcases m8 i hi with hmem | ⟨hnb, _⟩
            · exact hvalid i hmem
            · exact hnbrs cur hcl i hnb
          · intro i hi j hj
            rw [m7] at hi
            rw [m7]
            exact hnbrs i hi j hj
          · exact hng
          · have := m9 hcl
            omega

/-- Every node in the expansion trace is unvisited at the moment the trace
starts, because expansion only ever marks nodes visited. -/
theorem astarTrace_unvisited (hfun : Nat → ℚ) (nbrs : Nat → List Nat) (goal : Nat) :
    ∀ (fuel : Nat) (st : AState),
    ∀ i ∈ astarTrace hfun nbrs goal fuel st, (getNode st.nodes i).isVisited = false := by
  intro fuel
  induction fuel with
  | zero => intro st i hi; simp [astarTrace] at hi
  | succ fuel ih =>
      intro st i hi
      cases hstep : astarStep hfun nbrs goal st with
      | halt st2 => simp only [astarTrace, hstep] at hi; cases hi
      | expanded cur st2 =>
          simp only [astarTrace, hstep] at hi
          obtain ⟨m1, m2, m3, m4, m5, m6, m7, m8, m9⟩ :=
            astarStep_expanded_facts hfun nbrs goal st cur st2 hstep
          rcases List.mem_cons.mp hi with rfl | hmem
          · exact m2
          · have h2 := ih st2 i hmem
            cases hvi : (getNode st.nodes i).isVisited with
            | false => rfl
            | true =>
                have h3 := m5 i hvi
                rw [h2] at h3
                cases h3
/-- The expansion trace never repeats a node: only unvisited nodes are
expanded and each expansion marks its node visited. -/
theorem astarTrace_nodup (hfun : Nat → ℚ) (nbrs : Nat → List Nat) (goal : Nat) :
    ∀ (fuel : Nat) (st : AState),
    (∀ i ∈ st.listNotTestedNodes, i < st.nodes.length) →
    (∀ i, i < st.nodes.length → ∀ j ∈ nbrs i, j < st.nodes.length) →
    (astarTrace hfun nbrs goal fuel st).Nodup := by
  intro fuel
  induction fuel with
  | zero => intro st _ _; simp [astarTrace]
  | succ fuel ih =>
      intro st hvalid hnbrs
      cases hstep : astarStep hfun nbrs goal st with
      | halt st2 => simp [astarTrace, hstep]
      | expanded cur st2 =>
          simp only [astarTrace, hstep]
          obtain ⟨m1, m2, m3, m4, m5, m6, m7, m8, m9⟩ :=
            astarStep_expanded_facts hfun nbrs goal st cur st2 hstep
          have hcl : cur < st.nodes.length := hvalid cur m1
          have hvalid2 : ∀ i ∈ st2.listNotTestedNodes, i < st2.nodes.length := by
            intro i hi
            rw [m7]
            rcases m8 i hi with hmem | ⟨hnb, _⟩
            · exact hvalid i hmem
            · exact hnbrs cur hcl i hnb
          have hnbrs2 : ∀ i, i < st2.nodes.length → ∀ j ∈ nbrs i, j < st2.nodes.length := by
            intro i hi j hj
            rw [m7] at hi
            rw [m7]
            exact hnbrs i hi j hj
          rw [List.nodup_cons]
          refine ⟨?_, ih st2 hvalid2 hnbrs2⟩
          intro hmem
          have h2 := astarTrace_unvisited hfun nbrs goal fuel st2 cur hmem
          have h3 := m4 hcl
          rw [h2] at h3
          cases h3

/-- The parent chain walk starts at the requested node and follows parent
links between consecutive entries. -/
theorem buildChain_facts (ns : List ANode) :
    ∀ (fuel : Nat), ∀ (i : Nat), 0 < fuel →
    (buildChain ns fuel i).head? = some i ∧
    List.Chain' (fun a b => (getNode ns a).parent = some b) (buildChain ns fuel i) ∧
    buildChain ns fuel i ≠ [] := by
  intro fuel
  induction fuel with
  | zero => intro i h; omega
  | succ fuel ih =>
      intro i _
      refine ⟨rfl, ?_, by simp [buildChain]⟩
      cases hp : (getNode ns i).parent with
      | none => simp [buildChain, hp]
      | some p =>
          simp only [buildChain, hp]
          cases fuel with
          | zero => simp [buildChain]
          | succ fuel2 =>
              obtain ⟨th, tc, tn⟩ := ih p (Nat.succ_pos _)
              rw [List.chain'_cons']
              refine ⟨?_, tc⟩
              intro b hb
              rw [th] at hb
              have hbp : p = b := by simpa using hb
              subst hbp
              exact hp

/-- C8: in the A* loop of src/pacman.cpp, (i) the node expanded by an
iteration is an unvisited member of the open list whose global goal (the
combined local-plus-heuristic cost) is not beaten by any other unvisited
open node; (ii) the sequence of expanded nodes never repeats a node, so a
finalized node is never re-expanded; (iii) when the goal tile is not
reachable from the start through non-obstacle neighbors, the search ends
with an empty open list; (iv) the produced path is the reversed parent
chain that ends at the goal node and follows parent links; and (v) the
caller moves the ghost only on a path longer than one node. -/
theorem c8_astar_properties :
    (∀ (hfun : Nat → ℚ) (nbrs : Nat → List Nat) (goal : Nat) (st : AState)
        (cur : Nat) (st' : AState),
        astarStep hfun nbrs goal st = StepResult.expanded cur st' →
        cur ∈ st.listNotTestedNodes ∧
        (getNode st.nodes cur).isVisited = false ∧
        ∀ j ∈ st.listNotTestedNodes, (getNode st.nodes j).isVisited = false →
          qltB (getNode st.nodes j).globalGoal (getNode st.nodes cur).globalGoal = false) ∧
    (∀ (hfun : Nat → ℚ) (nbrs : Nat → List Nat) (goal fuel : Nat) (st : AState),
        (∀ i ∈ st.listNotTestedNodes, i < st.nodes.length) →
        (∀ i, i < st.nodes.length → ∀ j ∈ nbrs i, j < st.nodes.length) →
        (astarTrace hfun nbrs goal fuel st).Nodup) ∧
    (∀ (hfun : Nat → ℚ) (nbrs : Nat → List Nat) (g0 : ℚ) (start goal : Nat)
        (ns : List ANode) (fuel : Nat),
        start < ns.length →
        (∀ i, i < ns.length → ∀ j ∈ nbrs i, j < ns.length) →
        ¬ ReachableFrom nbrs (fun k => (getNode ns k).isObstacle) start goal →
        ns.length < fuel →
        (astarLoop hfun nbrs goal fuel (astarInit g0 start ns)).listNotTestedNodes = []) ∧
    (∀ (ns : List ANode) (fuel goal : Nat), 0 < fuel →
        (ghostPathOf ns fuel goal).getLast? = some goal ∧
        List.Chain' (fun a b => (getNode ns b).parent = some a) (ghostPathOf ns fuel goal) ∧
        ghostPathOf ns fuel goal ≠ []) ∧
    (∀ path : List Nat, path.length ≤ 1 → pathMoveGuard path = false) := by
  refine ⟨?_, ?_, ?_, ?_, ?_⟩
  · intro hfun nbrs goal st cur st' hstep
    obtain ⟨m1, m2, m3, _⟩ := astarStep_expanded_facts hfun nbrs goal st cur st' hstep
    exact ⟨m1, m2, m3⟩
  · intro hfun nbrs goal fuel st hvalid hnbrs
    exact astarTrace_nodup hfun nbrs goal fuel st hvalid hnbrs
  · intro hfun nbrs g0 start goal ns fuel hstart hnbrs hnr hfuel
    apply astarLoop_unreachable_empty hfun nbrs start goal
      (fun k => (getNode ns k).isObstacle) fuel (astarInit g0 start ns)
    · intro k
      exact astarInit_obstacle g0 start ns k
    · intro i hi
      have : i = start := by simpa [astarInit] using hi
      subst this
      exact Relation.ReflTransGen.refl
    · intro i hi
      have : i = start := by simpa [astarInit] using hi
      subst this
      rw [astarInit_length]
      exact hstart
    · intro i hi j hj
      rw [astarInit_length] at hi
      rw [astarInit_length]
      exact hnbrs i hi j hj
    · exact hnr
    · have h1 : unvisitedCount (astarInit g0 start ns).nodes ≤
          (astarInit g0 start ns).nodes.length := List.countP_le_length _
      rw [astarInit_length] at h1
      omega
  · intro ns fuel goal hf
    obtain ⟨th, tc, tn⟩ := buildChain_facts ns fuel goal hf
    refine ⟨?_, ?_, ?_⟩
    · unfold ghostPathOf
      rw [List.getLast?_reverse]
      exact th
    · unfold ghostPathOf
      rw [List.chain'_reverse]
      exact tc
    · unfold ghostPathOf
      simpa using tn
  · intro path hlen
    unfold pathMoveGuard
    have : decide (1 < path.length) = false := by
      simp
      omega
    rw [this]
    simp

/-- C8 witness: on the concrete two-node arena whose goal node is an
obstacle, the expansion trace has no repeats, the search from node 0 for
goal 1 empties its open list within the fuel bound, the produced path ends
at the goal, and a length-one path moves no ghost. -/
theorem c8_witness :
    (astarTrace c8Heur (gridNeighbors 2 1) 1 3 c8Init).Nodup ∧
    (astarLoop c8Heur (gridNeighbors 2 1) 1 3 c8Init).listNotTestedNodes = [] ∧
    (ghostPathOf c8Nodes 1 0).getLast? = some 0 ∧
    pathMoveGuard [0] = false := by
  have h := c8_astar_properties
  have hnbrs : ∀ i, i < c8Nodes.length → ∀ j ∈ gridNeighbors 2 1 i, j < c8Nodes.length := by
    intro i hi j hj
    have hi2 : i < 2 := by simpa [c8Nodes] using hi
    have hgoal : j < 2 := by
      interval_cases i <;> simp [gridNeighbors] at hj <;> omega
    simpa [c8Nodes] using hgoal
  have hlen2 : c8Init.nodes.length = 2 := by
    show (astarInit 5 0 c8Nodes).nodes.length = 2
    rw [astarInit_length]
    rfl
  have hvalid : ∀ i ∈ c8Init.listNotTestedNodes, i < c8Init.nodes.length := by
    intro i hi
    have hz : i = 0 := by simpa [c8Init, astarInit] using hi
    subst hz
    omega
  have hnbrs2 : ∀ i, i < c8Init.nodes.length →
      ∀ j ∈ gridNeighbors 2 1 i, j < c8Init.nodes.length := by
    intro i hi j hj
    rw [hlen2] at hi
    rw [hlen2]
    have := hnbrs i (by simpa [c8Nodes] using hi) j hj
    simpa [c8Nodes] using this
  have hnr : ¬ ReachableFrom (gridNeighbors 2 1)
      (fun k => (getNode c8Nodes k).isObstacle) 0 1 := by
    intro hr
    rcases Relation.ReflTransGen.cases_tail hr with heq | ⟨c, _, hc⟩
    · exact absurd heq (by norm_num)
    · have h2 := hc.2
      simp [getNode, c8Nodes] at h2
  refine ⟨?_, ?_, ?_, ?_⟩
  · exact h.2.1 c8Heur (gridNeighbors 2 1) 1 3 c8Init hvalid hnbrs2
  · exact h.2.2.1 c8Heur (gridNeighbors 2 1) 5 0 1 c8Nodes 3 (by simp [c8Nodes]) hnbrs hnr
      (by simp [c8Nodes])
  · exact (h.2.2.2.1 c8Nodes 1 0 (by norm_num)).1
  · exact h.2.2.2.2 [0] (by simp)

end PacmanLegends
